import Mathlib

/-!
Verification of the opencode core subsystems against their specification:
the AWS Bedrock model-ID region prefixing, the PTY multiplexer
(`Pty.create` output handler, `Pty.connect`, `Pty.update`, `Pty.remove`),
the prompt-engineered tool-call shim of the Ollama adapter
(`extractJson`, `parsePromptToolCall`, `doGenerate`, `doStream`), and the
provider registry filter pass and `Provider.getModel` lookup.

Each code definition is a shallow embedding of the corresponding
TypeScript function; JavaScript strings are modelled as Lean `String`s
(lengths in characters), JavaScript objects holding JSON data as an
inductive `Json` type, and the stateful multiplexer as explicit state
passing over a session table.
-/

namespace StringUtil

/-- `pat.isPrefixOf (s.drop i)` for some `i`: Boolean substring test on
character lists, mirroring JavaScript `String.prototype.includes`. -/
def listIsInfixB (pat s : List Char) : Bool :=
  (List.range (s.length + 1)).any (fun i => pat.isPrefixOf (List.drop i s))

/-- JavaScript `s.includes(pat)`. -/
def strIncludes (s pat : String) : Bool :=
  listIsInfixB pat.toList s.toList

/-- JavaScript `s.startsWith(pat)`, computed on character lists so the
kernel can evaluate it. -/
def strStartsWith (s pat : String) : Bool :=
  pat.toList.isPrefixOf s.toList

/-- JavaScript `s.endsWith(pat)`. -/
def strEndsWith (s pat : String) : Bool :=
  pat.toList.isSuffixOf s.toList

/-- Helper for `splitOnChar`: accumulates the current segment reversed. -/
def splitOnCharAux (c : Char) : List Char → List Char → List String
  | [], acc => [⟨acc.reverse⟩]
  | x :: xs, acc =>
    if x = c then ⟨acc.reverse⟩ :: splitOnCharAux c xs []
    else splitOnCharAux c xs (x :: acc)

/-- JavaScript `s.split(c)` for a one-character separator (always returns
at least one segment, like the JS version). -/
def splitOnChar (c : Char) (s : String) : List String :=
  splitOnCharAux c s.toList []

/-- JavaScript `s.slice(-n)` for `n > 0`: the trailing `n` characters
(the whole string when `n ≥ s.length`). -/
def jsSliceNeg (s : String) (n : Nat) : String :=
  ⟨s.toList.drop (s.toList.length - n)⟩

/-- JavaScript `s.slice(i, j)` for `0 ≤ i ≤ j`: characters `i` to `j-1`. -/
def jsSlice (s : String) (i j : Nat) : String :=
  ⟨(s.toList.drop i).take (j - i)⟩

end StringUtil

open StringUtil

/-!
## AWS Bedrock region prefixing

Embedding of `CUSTOM_LOADERS["amazon-bedrock"].getModel` from
`src/packages/opencode/src/cli/cmd/mcp.ts` (the model-ID rewriting it
performs before handing the ID to `sdk.languageModel`).
-/

namespace Bedrock

/-- The model-ID rewriting performed by the amazon-bedrock custom
loader's `getModel`: region-family prefixing with pass-through for
already-prefixed IDs and a GovCloud exclusion. -/
def resolveBedrockModelID (region modelID : String) : String :=
  if strStartsWith modelID "global." || strStartsWith modelID "jp." then modelID
  else
    let regionPrefix := (splitOnChar (Char.ofNat 45) region).headD ""
    if regionPrefix == "us" then
      let modelRequiresPrefix :=
        ["nova-micro", "nova-lite", "nova-pro", "nova-premier", "claude", "deepseek"].any
          (fun m => strIncludes modelID m)
      let isGovCloud := strStartsWith region "us-gov"
      if modelRequiresPrefix && !isGovCloud then "us." ++ modelID else modelID
    else if regionPrefix == "eu" then
      let regionRequiresPrefix :=
        ["eu-west-1", "eu-west-2", "eu-west-3", "eu-north-1", "eu-central-1",
          "eu-south-1", "eu-south-2"].any (fun r => strIncludes region r)
      let modelRequiresPrefix :=
        ["claude", "nova-lite", "nova-micro", "llama3", "pixtral"].any
          (fun m => strIncludes modelID m)
      if regionRequiresPrefix && modelRequiresPrefix then "eu." ++ modelID else modelID
    else if regionPrefix == "ap" then
      let isAustraliaRegion := ["ap-southeast-2", "ap-southeast-4"].contains region
      let isTokyoRegion := region == "ap-northeast-1"
      if isAustraliaRegion &&
          ["anthropic.claude-sonnet-4-5", "anthropic.claude-haiku"].any
            (fun m => strIncludes modelID m) then
        "au." ++ modelID
      else if isTokyoRegion then
        if ["claude", "nova-lite", "nova-micro", "nova-pro"].any
            (fun m => strIncludes modelID m) then
          "jp." ++ modelID
        else modelID
      else
        if ["claude", "nova-lite", "nova-micro", "nova-pro"].any
            (fun m => strIncludes modelID m) then
          "apac." ++ modelID
        else modelID
    else modelID

end Bedrock

/-!
## PTY multiplexer

Embedding of the `Pty` namespace from `src/unnamed/part_002`: the session
table, the `onData` output handler installed by `Pty.create`, and the
`connect` / `update` / `write` / `remove` / `listen` operations.  WebSocket
sinks (`WSContext`) are modelled by natural-number identifiers; a sink's
`readyState !== 1` condition is modelled by membership in a `closed` set
driven by external events; a `send` that throws during the `connect`
backlog flush is modelled by an explicit failure index.  Deliveries
(`ws.send`) are recorded in an append-only log, bus publications in an
event list, and child-stdin writes (`process.write`) in a write log.
-/

namespace Pty

def BUFFER_LIMIT : Nat := 1024 * 1024 * 2

def BUFFER_CHUNK : Nat := 64 * 1024

inductive SessStatus where
  | running
  | exited
deriving DecidableEq

/-- The per-session record `ActiveSession` (with the fields of `info`
inlined; `id`, `args` and `pid` are not needed by any claim). -/
structure Session where
  title : String
  command : String
  cwd : String
  status : SessStatus
  buffer : String
  subscribers : List Nat
  listeners : List Nat
  cwdPinned : Bool
deriving DecidableEq

/-- Bus publications (`Pty.Event`); `created`/`updated` carry the full
`info` record in the source, projected here to the session id. -/
inductive BusEv where
  | created (sid : String)
  | updated (sid : String)
  | exited (sid : String) (code : Int)
  | deleted (sid : String)
deriving DecidableEq

/-- The multiplexer state: the session table (`Instance.state` map),
the set of sinks whose `readyState` is not 1, the delivery log, the bus
publications, and the child-stdin writes. -/
structure Mux where
  table : List (String × Session)
  closed : List Nat
  log : List (Nat × String)
  events : List BusEv
  writes : List (String × String)
deriving DecidableEq

def initMux : Mux := ⟨[], [], [], [], []⟩

/-- `Map.get`. -/
def tableGet : List (String × Session) → String → Option Session
  | [], _ => none
  | p :: ps, sid => if p.1 = sid then some p.2 else tableGet ps sid

/-- `Map.set`. -/
def tableSet : List (String × Session) → String → Session → List (String × Session)
  | [], sid, s => [(sid, s)]
  | p :: ps, sid, s => if p.1 = sid then (sid, s) :: ps else p :: tableSet ps sid s

/-- `Map.delete`. -/
def tableErase : List (String × Session) → String → List (String × Session)
  | [], _ => []
  | p :: ps, sid => if p.1 = sid then tableErase ps sid else p :: tableErase ps sid

/-- `Set.add` (JavaScript sets keep insertion order and ignore
duplicates). -/
def setAdd (l : List Nat) (w : Nat) : List Nat :=
  if w ∈ l then l else l ++ [w]

/-- `Set.delete`. -/
def setRemove (l : List Nat) (w : Nat) : List Nat :=
  l.filter (fun x => x ≠ w)

/-- JavaScript `String.prototype.trim` (whitespace model: `Char.isWhitespace`). -/
def strTrim (s : String) : String :=
  ⟨((s.toList.dropWhile Char.isWhitespace).reverse.dropWhile Char.isWhitespace).reverse⟩

/-- JavaScript `s.toLowerCase()` on the character list. -/
def strToLower (s : String) : String :=
  ⟨s.toList.map Char.toLower⟩

/-- JavaScript `s.replaceAll(c, rep)` for a one-character pattern. -/
def strReplaceAll (s : String) (c : Char) (rep : String) : String :=
  ⟨s.toList.foldr (fun ch acc => if ch = c then rep.toList ++ acc else ch :: acc) []⟩

/-- `detectShellKind` from `src/unnamed/part_002`. -/
def detectShellKind (shellPath : String) : String :=
  let s := strToLower shellPath
  if strIncludes s "powershell" || strEndsWith s "pwsh" then "powershell"
  else if strEndsWith s "cmd.exe" || strEndsWith s "\\cmd" || strEndsWith s "/cmd" then "cmd"
  else "posix"

/-- `posixQuote`: wrap in single quotes, escaping each quote as `'"'"'`. -/
def posixQuote (value : String) : String :=
  "\x27" ++ strReplaceAll value '\x27' "\x27\"\x27\"\x27" ++ "\x27"

/-- `powershellQuote`: wrap in single quotes, doubling inner quotes. -/
def powershellQuote (value : String) : String :=
  "\x27" ++ strReplaceAll value '\x27' "\x27\x27" ++ "\x27"

/-- `buildCwdCommand` from `src/unnamed/part_002`. -/
def buildCwdCommand (shell : String) (cwd : String) : String :=
  if shell = "cmd" then "cd /d \"" ++ strReplaceAll cwd '"' "\"\"" ++ "\"\r\n"
  else if shell = "powershell" then "Set-Location -LiteralPath " ++ powershellQuote cwd ++ "\r\n"
  else "cd -- " ++ posixQuote cwd ++ "\r"

/-- The subscriber fan-out loop of the `onData` handler
(`src/unnamed/part_002` lines 142-149): drops closed sinks, sends the
chunk to open ones.  Returns the surviving subscriber list, the `open`
flag, and the deliveries made. -/
def onDataSubs (closed : List Nat) (data : String) : List Nat → List Nat × Bool × List (Nat × String)
  | [] => ([], false, [])
  | ws :: rest =>
    if ws ∈ closed then onDataSubs closed data rest
    else (ws :: (onDataSubs closed data rest).1, true,
      (ws, data) :: (onDataSubs closed data rest).2.2)

/-- The keep-or-truncate step shared by the `onData` handler and the
`connect` flush
(`buffer.length <= BUFFER_LIMIT ? buffer : buffer.slice(-BUFFER_LIMIT)`). -/
def bufTruncate (b : String) : String :=
  if b.length ≤ BUFFER_LIMIT then b else jsSliceNeg b BUFFER_LIMIT

/-- The `onData` handler of `Pty.create` (`src/unnamed/part_002` lines
135-154), minus the listener notifications (which are wrapped in
`try {} catch {}` and have no effect on multiplexer state): fan out to
subscribers; if none was open, append the chunk to the buffer and
truncate it to the trailing `BUFFER_LIMIT` characters. -/
def onData (closed : List Nat) (s : Session) (data : String) : Session × List (Nat × String) :=
  if (onDataSubs closed data s.subscribers).2.1 then
    ({ s with subscribers := (onDataSubs closed data s.subscribers).1 },
      (onDataSubs closed data s.subscribers).2.2)
  else
    ({ s with subscribers := (onDataSubs closed data s.subscribers).1,
              buffer := bufTruncate (s.buffer ++ data) },
      (onDataSubs closed data s.subscribers).2.2)

/-- The `≤ 64 KiB` chunking of the backlog flush loop
(`for (let i = 0; i < buffer.length; i += BUFFER_CHUNK) ws.send(buffer.slice(i, i + BUFFER_CHUNK))`). -/
def chunksAux : Nat → List Char → List String
  | 0, _ => []
  | fuel + 1, l =>
    if l.isEmpty then []
    else (⟨l.take BUFFER_CHUNK⟩ : String) :: chunksAux fuel (l.drop BUFFER_CHUNK)

def chunkList (b : String) : List String := chunksAux b.toList.length b.toList

/-- List-of-strings concatenation (used to state that the flushed chunks
reassemble to the backlog). -/
def strJoin : List String → String
  | [] => ""
  | s :: ss => s ++ strJoin ss

/-- `options?.directory?.trim()` of `Pty.connect`, with the JavaScript
truthiness test folded in: an absent directory behaves like the empty
string. -/
def dirOf : Option String → String
  | none => ""
  | some d => strTrim d

/-- The cwd-pinning block of `Pty.connect` (`src/unnamed/part_002` lines
245-254): on a first `options.directory`, pin the cwd, publish
`pty.updated` and write a shell-appropriate `cd` command to the child.
Returns the updated session, bus-event list and write log. -/
def connectDir (m : Mux) (sid : String) (session : Session) (dir : String) :
    Session × List BusEv × List (String × String) :=
  if dir ≠ "" ∧ ¬session.cwdPinned then
    if dir ≠ session.cwd then
      ({ session with cwdPinned := true, cwd := dir }, m.events ++ [.updated sid],
        m.writes ++ [(sid, buildCwdCommand (detectShellKind session.command) dir)])
    else ({ session with cwdPinned := true }, m.events, m.writes)
  else (session, m.events, m.writes)

/-- The backlog flush of `Pty.connect` (`src/unnamed/part_002` lines
256-269): flush the (truncated) backlog in `BUFFER_CHUNK`-sized pieces to
the new sink `w` and clear the buffer; if the send of chunk `failAt`
throws, drop `w` from the subscribers, restore the buffer and close the
sink. -/
def connectFlush (m : Mux) (sid : String) (w : Nat) (session : Session)
    (evs : List BusEv) (wrs : List (String × String)) (failAt : Option Nat) : Mux × Bool :=
  if session.buffer ≠ "" then
    match failAt with
    | some j =>
      if j < (chunkList (bufTruncate session.buffer)).length then
        ({ m with table := tableSet m.table sid
                    ({ session with subscribers := setRemove session.subscribers w,
                                    buffer := bufTruncate session.buffer }),
                  closed := setAdd m.closed w,
                  log := m.log ++ ((chunkList (bufTruncate session.buffer)).take j).map
                    (fun c => (w, c)),
                  events := evs, writes := wrs }, false)
      else
        ({ m with table := tableSet m.table sid ({ session with buffer := "" }),
                  log := m.log ++ (chunkList (bufTruncate session.buffer)).map (fun c => (w, c)),
                  events := evs, writes := wrs }, true)
    | none =>
      ({ m with table := tableSet m.table sid ({ session with buffer := "" }),
                log := m.log ++ (chunkList (bufTruncate session.buffer)).map (fun c => (w, c)),
                events := evs, writes := wrs }, true)
  else ({ m with table := tableSet m.table sid session, events := evs, writes := wrs }, true)

/-- `Pty.connect` (`src/unnamed/part_002` lines 236-279).  `w` is the
connecting sink, `directory` is `options?.directory`, and `failAt` makes
the `ws.send` of the given flush-chunk index throw (a `none` means every
send succeeds).  Returns the new state and whether the
`onMessage`/`onClose` handler record was returned (`true`) or the
function returned `undefined` (`false`). -/
def connect (m : Mux) (sid : String) (w : Nat) (directory : Option String) (failAt : Option Nat) :
    Mux × Bool :=
  match tableGet m.table sid with
  | none => ({ m with closed := setAdd m.closed w }, false)
  | some session =>
    match connectDir m sid ({ session with subscribers := setAdd session.subscribers w })
        (dirOf directory) with
    | (session, evs, wrs) => connectFlush m sid w session evs wrs failAt

/-- The `if (input.title) session.info.title = input.title` part of
`Pty.update`. -/
def applyTitle (s : Session) : Option String → Session
  | some t => if t ≠ "" then { s with title := t } else s
  | none => s

/-- External events driving the multiplexer. -/
inductive Ev where
  | createEv (sid command cwd title : String) (cwdGiven : Bool)
  | outputEv (sid data : String)
  | connectEv (sid : String) (w : Nat) (directory : Option String) (failAt : Option Nat)
  | closeEv (sid : String) (w : Nat)
  | setClosedEv (w : Nat)
  | writeEv (sid data : String)
  | updateEv (sid : String) (title : Option String)
  | removeEv (sid : String)
  | exitEv (sid : String) (code : Int)
  | listenEv (sid : String) (l : Nat)
  | unlistenEv (sid : String) (l : Nat)
deriving DecidableEq

/-- One multiplexer step.  `createEv` is `Pty.create` (the spawn itself
is external), `outputEv` an invocation of the `onData` handler,
`connectEv` is `Pty.connect`, `closeEv` the `onClose` handler,
`setClosedEv` an external socket close (readyState leaves 1), `exitEv`
the `onExit` handler (which sets `info.status = "exited"`, publishes
`pty.exited` and deletes the entry), and the rest the corresponding
exported functions. -/
def step (m : Mux) : Ev → Mux
  | .createEv sid command cwd title cwdGiven =>
    let s : Session := { title := title, command := command, cwd := cwd,
                         status := .running, buffer := "", subscribers := [],
                         listeners := [], cwdPinned := cwdGiven }
    { m with table := tableSet m.table sid s, events := m.events ++ [.created sid] }
  | .outputEv sid data =>
    match tableGet m.table sid with
    | none => m
    | some s =>
      let r := onData m.closed s data
      { m with table := tableSet m.table sid r.1, log := m.log ++ r.2 }
  | .connectEv sid w directory failAt => (connect m sid w directory failAt).1
  | .closeEv sid w =>
    match tableGet m.table sid with
    | none => m
    | some s =>
      { m with table := tableSet m.table sid ({ s with subscribers := setRemove s.subscribers w }) }
  | .setClosedEv w => { m with closed := setAdd m.closed w }
  | .writeEv sid data =>
    match tableGet m.table sid with
    | none => m
    | some s =>
      { m with writes := if s.status = .running then m.writes ++ [(sid, data)] else m.writes }
  | .updateEv sid title =>
    match tableGet m.table sid with
    | none => m
    | some s =>
      { m with table := tableSet m.table sid (applyTitle s title),
               events := m.events ++ [.updated sid] }
  | .removeEv sid =>
    match tableGet m.table sid with
    | none => m
    | some s =>
      { m with table := tableErase m.table sid,
               closed := s.subscribers.foldl setAdd m.closed,
               events := m.events ++ [.deleted sid] }
  | .exitEv sid code =>
    match tableGet m.table sid with
    | none => m
    | some _ =>
      { m with table := tableErase m.table sid, events := m.events ++ [.exited sid code] }
  | .listenEv sid l =>
    match tableGet m.table sid with
    | none => m
    | some s =>
      { m with table := if s.status = .running then
                 tableSet m.table sid ({ s with listeners := setAdd s.listeners l })
               else m.table }
  | .unlistenEv sid l =>
    match tableGet m.table sid with
    | none => m
    | some s => { m with table := tableSet m.table sid { s with listeners := setRemove s.listeners l } }

def run (m : Mux) (evs : List Ev) : Mux := evs.foldl step m

/-- The byte chunks delivered to sink `w`, in order. -/
def deliveredTo (w : Nat) (log : List (Nat × String)) : List String :=
  (log.filter (fun e => e.1 = w)).map Prod.snd

/-- Events that can affect what sink `w` receives from session `sid`:
closing or reconnecting the sink, or removing, exiting or re-creating the
session. -/
def evTouches (sid : String) (w : Nat) : Ev → Bool
  | .createEv sid2 _ _ _ _ => if sid2 = sid then true else false
  | .connectEv _ w2 _ _ => if w2 = w then true else false
  | .closeEv _ w2 => if w2 = w then true else false
  | .setClosedEv w2 => if w2 = w then true else false
  | .removeEv sid2 => if sid2 = sid then true else false
  | .exitEv sid2 _ => if sid2 = sid then true else false
  | _ => false

/-- The child output of session `sid` over an event sequence, in order. -/
def childOut (sid : String) : List Ev → List String
  | [] => []
  | .outputEv sid2 d :: rest =>
    if sid2 = sid then d :: childOut sid rest else childOut sid rest
  | _ :: rest => childOut sid rest

/-- The state of an attached, still-open subscriber `w` of session `sid`:
`w` is a subscriber of `sid` exactly once, of no other session, and its
socket is open. -/
def GoodAt (sid : String) (w : Nat) (m : Mux) : Prop :=
  (∃ t, tableGet m.table sid = some t ∧ t.subscribers.count w = 1) ∧
  (∀ sid2 t2, sid2 ≠ sid → tableGet m.table sid2 = some t2 → w ∉ t2.subscribers) ∧
  w ∉ m.closed

end Pty

namespace Pty

/-- The inductive invariant of reachable multiplexer states: every session
in the table is `running` and its buffer is within `BUFFER_LIMIT`. -/
def Inv (m : Mux) : Prop :=
  ∀ sid s, tableGet m.table sid = some s →
    s.buffer.length ≤ BUFFER_LIMIT ∧ s.status = SessStatus.running

end Pty

/-!
## JSON model and the prompt-engineered tool-call shim

A model of the JavaScript JSON values produced by `JSON.parse`, a
character-level parser for them (strict JSON grammar; numbers keep their
lexeme so that `JSON.stringify` round-trips them verbatim), and the
embedding of `extractJson` / `parsePromptToolCall` from the Ollama custom
loader in `src/packages/opencode/src/cli/cmd/mcp.ts`.
-/

namespace Shim

/-- JavaScript JSON values.  A number keeps its source lexeme (integer
token counts and arguments round-trip verbatim through
`JSON.parse`/`JSON.stringify`); object fields keep JS insertion order,
with duplicate keys collapsed last-wins at parse time as `JSON.parse`
does. -/
inductive Json where
  | null
  | bool (b : Bool)
  | num (raw : String)
  | str (s : String)
  | arr (items : List Json)
  | obj (fields : List (String × Json))

/-- JS property access `j.k` on a parsed value: `undefined` (`none`) on
anything that is not an object with that key. -/
def Json.getOpt : Json → String → Option Json
  | .obj fields, k => fields.foldl (fun acc p => if p.1 = k then some p.2 else acc) none
  | _, _ => none

/-- JS nullish coalescing `a ?? b` on possibly-absent values. -/
def jsOr (a b : Option Json) : Option Json :=
  match a with
  | none => b
  | some Json.null => b
  | some v => some v

/-- JS truthiness of a JSON value. -/
def jsTruthy : Json → Bool
  | .null => false
  | .bool b => b
  | .num raw => raw ≠ "0"
  | .str s => s ≠ ""
  | .arr _ => true
  | .obj _ => true

def isJsonWs (c : Char) : Bool :=
  c = ' ' || c = '\t' || c = '\n' || c = '\r'

def skipWs (l : List Char) : List Char := l.dropWhile isJsonWs

def isDigit (c : Char) : Bool := '0' ≤ c && c ≤ '9'

def hexVal (c : Char) : Option Nat :=
  let n := c.toNat
  if 48 ≤ n && n ≤ 57 then some (n - 48)
  else if 97 ≤ n && n ≤ 102 then some (n - 87)
  else if 65 ≤ n && n ≤ 70 then some (n - 55)
  else none

/-- JSON string body parser (after the opening quote), handling the JSON
escape set. -/
def parseStringAux : List Char → List Char → Option (String × List Char)
  | _, [] => none
  | acc, c :: rest =>
    if c = '"' then some (⟨acc.reverse⟩, rest)
    else if c = '\\' then
      match rest with
      | [] => none
      | e :: rest2 =>
        if e = '"' then parseStringAux ('"' :: acc) rest2
        else if e = '\\' then parseStringAux ('\\' :: acc) rest2
        else if e = '/' then parseStringAux ('/' :: acc) rest2
        else if e = 'b' then parseStringAux (Char.ofNat 8 :: acc) rest2
        else if e = 'f' then parseStringAux (Char.ofNat 12 :: acc) rest2
        else if e = 'n' then parseStringAux ('\n' :: acc) rest2
        else if e = 'r' then parseStringAux ('\r' :: acc) rest2
        else if e = 't' then parseStringAux ('\t' :: acc) rest2
        else if e = 'u' then
          match rest2 with
          | h1 :: h2 :: h3 :: h4 :: rest3 =>
            match hexVal h1, hexVal h2, hexVal h3, hexVal h4 with
            | some a, some b, some c2, some d =>
              parseStringAux (Char.ofNat (((a * 16 + b) * 16 + c2) * 16 + d) :: acc) rest3
            | _, _, _, _ => none
          | _ => none
        else none
    else parseStringAux (c :: acc) rest

/-- Strict JSON number lexeme: `-? (0 | [1-9][0-9]*) (. [0-9]+)? ([eE][+-]?[0-9]+)?`. -/
def parseNumber (l : List Char) : Option (String × List Char) :=
  let step1 : Option (List Char × List Char) :=
    match l with
    | c :: rest =>
      if c = '-' then
        match rest with
        | d :: rest2 =>
          if d = '0' then some (['-', '0'], rest2)
          else if isDigit d then
            some ('-' :: d :: rest2.takeWhile isDigit, rest2.dropWhile isDigit)
          else none
        | [] => none
      else if c = '0' then some (['0'], rest)
      else if isDigit c then some (c :: rest.takeWhile isDigit, rest.dropWhile isDigit)
      else none
    | [] => none
  match step1 with
  | none => none
  | some (intPart, l2) =>
    let fracStep : Option (List Char × List Char) :=
      match l2 with
      | c :: rest =>
        if c = '.' then
          match rest.takeWhile isDigit with
          | [] => none
          | ds => some ('.' :: ds, rest.dropWhile isDigit)
        else some ([], l2)
      | [] => some ([], l2)
    match fracStep with
    | none => none
    | some (fracPart, l3) =>
      let expStep : Option (List Char × List Char) :=
        match l3 with
        | c :: rest =>
          if c = 'e' || c = 'E' then
            let signAndRest : List Char × List Char :=
              match rest with
              | d :: rest2 => if d = '+' || d = '-' then ([c, d], rest2) else ([c], rest)
              | [] => ([c], [])
            match signAndRest.2.takeWhile isDigit with
            | [] => none
            | ds => some (signAndRest.1 ++ ds, signAndRest.2.dropWhile isDigit)
          else some ([], l3)
        | [] => some ([], l3)
      match expStep with
      | none => none
      | some (expPart, l4) => some (⟨intPart ++ fracPart ++ expPart⟩, l4)

/-- Last-wins insertion, as assignment to a JS object property behaves
during `JSON.parse` (the original insertion position is kept). -/
def objInsert : List (String × Json) → String → Json → List (String × Json)
  | [], k, v => [(k, v)]
  | (k2, v2) :: rest, k, v =>
    if k2 = k then (k2, v) :: rest else (k2, v2) :: objInsert rest k v

mutual

/-- JSON value parser with fuel (one unit per nesting level). -/
def parseValue : Nat → List Char → Option (Json × List Char)
  | 0, _ => none
  | fuel + 1, l =>
    match skipWs l with
    | [] => none
    | c :: rest =>
      if c = '"' then (parseStringAux [] rest).map (fun p => (Json.str p.1, p.2))
      else if c = Char.ofNat 123 then
        match skipWs rest with
        | d :: rest2 =>
          if d = Char.ofNat 125 then some (Json.obj [], rest2)
          else (parseMembers fuel [] (skipWs rest)).map (fun p => (Json.obj p.1, p.2))
        | [] => none
      else if c = '[' then
        match skipWs rest with
        | d :: rest2 =>
          if d = ']' then some (Json.arr [], rest2)
          else (parseItems fuel [] (skipWs rest)).map (fun p => (Json.arr p.1, p.2))
        | [] => none
      else if c = 't' then
        match rest with
        | 'r' :: 'u' :: 'e' :: r => some (Json.bool true, r)
        | _ => none
      else if c = 'f' then
        match rest with
        | 'a' :: 'l' :: 's' :: 'e' :: r => some (Json.bool false, r)
        | _ => none
      else if c = 'n' then
        match rest with
        | 'u' :: 'l' :: 'l' :: r => some (Json.null, r)
        | _ => none
      else (parseNumber (c :: rest)).map (fun p => (Json.num p.1, p.2))

/-- Object members: `string : value (, string : value)* }`. -/
def parseMembers : Nat → List (String × Json) → List Char → Option (List (String × Json) × List Char)
  | 0, _, _ => none
  | fuel + 1, acc, l =>
    match skipWs l with
    | c :: rest =>
      if c = '"' then
        match parseStringAux [] rest with
        | some (k, r1) =>
          match skipWs r1 with
          | d :: r2 =>
            if d = ':' then
              match parseValue fuel r2 with
              | some (v, r3) =>
                match skipWs r3 with
                | e :: r4 =>
                  if e = ',' then parseMembers fuel (objInsert acc k v) r4
                  else if e = Char.ofNat 125 then some (objInsert acc k v, r4)
                  else none
                | [] => none
              | none => none
            else none
          | [] => none
        | none => none
      else none
    | [] => none

/-- Array items: `value (, value)* ]`. -/
def parseItems : Nat → List Json → List Char → Option (List Json × List Char)
  | 0, _, _ => none
  | fuel + 1, acc, l =>
    match parseValue fuel l with
    | some (v, r1) =>
      match skipWs r1 with
      | e :: r2 =>
        if e = ',' then parseItems fuel (acc ++ [v]) r2
        else if e = ']' then some (acc ++ [v], r2)
        else none
      | [] => none
    | none => none

end

/-- `JSON.parse`: parse one value, then require only whitespace to follow. -/
def jsonParse (s : String) : Option Json :=
  match parseValue (s.length + 1) s.toList with
  | some (v, rest) => if skipWs rest = [] then some v else none
  | none => none

def jsonQuoteChar (c : Char) : List Char :=
  if c = '"' then ['\\', '"']
  else if c = '\\' then ['\\', '\\']
  else if c = Char.ofNat 8 then ['\\', 'b']
  else if c = '\t' then ['\\', 't']
  else if c = '\n' then ['\\', 'n']
  else if c = Char.ofNat 12 then ['\\', 'f']
  else if c = '\r' then ['\\', 'r']
  else if c.toNat < 32 then
    let hex := fun (n : Nat) => if n < 10 then Char.ofNat ('0'.toNat + n)
      else Char.ofNat ('a'.toNat + (n - 10))
    ['\\', 'u', '0', '0', hex (c.toNat / 16), hex (c.toNat % 16)]
  else [c]

/-- `JSON.stringify` of a string. -/
def jsonQuote (s : String) : String :=
  "\"" ++ (⟨s.toList.foldr (fun c acc => jsonQuoteChar c ++ acc) []⟩ : String) ++ "\""

mutual

/-- `JSON.stringify` (compact form, no spacing). -/
def stringify : Json → String
  | .null => "null"
  | .bool true => "true"
  | .bool false => "false"
  | .num raw => raw
  | .str s => jsonQuote s
  | .arr items => "[" ++ stringifyItems items ++ "]"
  | .obj fields => "\x7b" ++ stringifyFields fields ++ "\x7d"

def stringifyItems : List Json → String
  | [] => ""
  | [x] => stringify x
  | x :: xs => stringify x ++ "," ++ stringifyItems xs

def stringifyFields : List (String × Json) → String
  | [] => ""
  | [(k, v)] => jsonQuote k ++ ":" ++ stringify v
  | (k, v) :: xs => jsonQuote k ++ ":" ++ stringify v ++ "," ++ stringifyFields xs

end

end Shim

namespace Shim

/-- First index of a character in a list (JS `indexOf`, with absence as
`none` instead of `-1`). -/
def idxOfChar (c : Char) : List Char → Option Nat
  | [] => none
  | x :: xs =>
    if x = c then some 0
    else (idxOfChar c xs).map (· + 1)

/-- Last index of a character in a list (JS `lastIndexOf`). -/
def lastIdxOfChar (c : Char) (l : List Char) : Option Nat :=
  (idxOfChar c l.reverse).map (fun i => l.length - 1 - i)

/-- `extractJson` from `src/packages/opencode/src/cli/cmd/mcp.ts`
(lines 1323-1335): trim, take the substring from the first opening brace
to the last closing brace, `JSON.parse` it; `undefined` whenever any of
that fails. -/
def extractJson (text : String) : Option Json :=
  let trimmed := Pty.strTrim text
  if trimmed = "" then none
  else
    match idxOfChar (Char.ofNat 123) trimmed.toList,
        lastIdxOfChar (Char.ofNat 125) trimmed.toList with
    | some start, some stop =>
      if stop ≤ start then none
      else jsonParse (jsSlice trimmed start (stop + 1))
    | some _, none => none
    | none, _ => none

/-- `json?.k`: optional chaining plus property access. -/
def jsGet (j : Option Json) (k : String) : Option Json :=
  j.bind (fun v => v.getOpt k)

/-- `const root = json?.opencode ?? json`. -/
def promptRoot (json : Option Json) : Option Json :=
  jsOr (jsGet json "opencode") json

/-- `root?.tool_calls ?? root?.toolCalls ?? root?.toolcalls`. -/
def promptToolCallsField (root : Option Json) : Option Json :=
  jsOr (jsGet root "tool_calls") (jsOr (jsGet root "toolCalls") (jsGet root "toolcalls"))

/-- `call?.arguments ?? call?.args ?? call?.input ?? \x7b\x7d` from the
per-call mapper. -/
def argOrEmpty (call : Json) : Json :=
  match jsOr (call.getOpt "arguments") (jsOr (call.getOpt "args") (call.getOpt "input")) with
  | some v => v
  | none => Json.obj []

/-- One entry of the `toolCalls.map(...)` in `parsePromptToolCall`: the
name must be a string (from `name`, else `tool`) and, being tested with
`if (!name)`, must also be non-empty; entries producing `undefined` are
removed by the `.filter(Boolean)`. -/
def parseCall (call : Json) : Option (String × Json) :=
  let name : Option String :=
    match call.getOpt "name" with
    | some (Json.str s) => some s
    | _ =>
      match call.getOpt "tool" with
      | some (Json.str s) => some s
      | _ => none
  match name with
  | some s => if s = "" then none else some (s, argOrEmpty call)
  | none => none

/-- The surviving calls: non-empty only when the `tool_calls` field is a
non-empty array with at least one parseable entry, exactly the guard
`Array.isArray(toolCalls) && toolCalls.length > 0` followed by
`calls.length > 0` in the source. -/
def promptCalls (root : Option Json) : List (String × Json) :=
  match promptToolCallsField root with
  | some (Json.arr items) => items.filterMap parseCall
  | _ => []

/-- `typeof root?.k === "string" ? root.k : undefined`. -/
def strField (root : Option Json) (k : String) : Option String :=
  match jsGet root k with
  | some (Json.str s) => some s
  | _ => none

/-- `a ?? b` on string-or-undefined values (a present empty string is
kept, as `\x22\x22 ?? x` is in JS). -/
def firstSome (a b : Option String) : Option String :=
  match a with
  | some s => some s
  | none => b

/-- `(root?.final ...) ?? (root?.content ...) ?? (root?.text ...)`. -/
def promptFinalText (root : Option Json) : Option String :=
  firstSome (strField root "final") (firstSome (strField root "content") (strField root "text"))

/-- Result type of `parsePromptToolCall`. -/
inductive PromptParse where
  | tool (calls : List (String × Json))
  | final (text : String)

/-- `parsePromptToolCall` from `mcp.ts` lines 1337-1360. -/
def parsePromptToolCall (text : String) : PromptParse :=
  if 0 < (promptCalls (promptRoot (extractJson text))).length then
    PromptParse.tool (promptCalls (promptRoot (extractJson text)))
  else
    match promptFinalText (promptRoot (extractJson text)) with
    | some s => PromptParse.final s
    | none => PromptParse.final text

/-- `call.arguments ?? \x7b\x7d` before `JSON.stringify` (the arguments
slot can only be `null` here when every spelling was literally `null`). -/
def argForStringify : Json → Json
  | Json.null => Json.obj []
  | v => v

/-- Structural map with the element index, used for the per-call
`crypto.randomUUID()` draws. -/
def mapWithIdx (f : Nat → α → β) : Nat → List α → List β
  | _, [] => []
  | i, x :: xs => f i x :: mapWithIdx f (i + 1) xs

/-- A content part of a `doGenerate` result. -/
inductive Content where
  | text (t : String)
  | toolCall (id : String) (toolName : String) (input : String)

/-- The prompt-tool-call branch of `doGenerate` (`mcp.ts` lines
1644-1685): the content parts and the finish reason, with `gen i` standing
for the `i`-th `crypto.randomUUID()` draw. -/
def doGeneratePromptParts (gen : Nat → String) (text : String) : List Content × String :=
  match parsePromptToolCall text with
  | PromptParse.tool calls =>
    (mapWithIdx (fun i c => Content.toolCall (gen i) c.1 (stringify (argForStringify c.2))) 0 calls,
      "tool-calls")
  | PromptParse.final t => ([Content.text t], "stop")

end Shim

namespace Shim

/-- A stream part of a `doStream` result (usage payloads elided: only the
part kinds and the fields the shape of the stream depends on are kept). -/
inductive StreamPart where
  | streamStart
  | raw (v : String)
  | error
  | textStart (id : String)
  | textDelta (id : String) (delta : String)
  | textEnd (id : String)
  | toolCall (id : String) (toolName : String) (input : String)
  | finish (reason : String)

/-- The mutable locals of the `doStream` read loop (`mcp.ts` lines
1735-1754). -/
structure LoopState where
  buffer : String
  isDone : Bool
  fullText : String
  currentTextId : Option String

def initLoopState : LoopState := ⟨"", false, "", none⟩

/-- `(chunk?.message && typeof chunk.message.content === "string" ?
chunk.message.content : undefined) ?? (typeof chunk?.response === "string"
? chunk.response : undefined)`. -/
def chunkDelta (chunk : Json) : Option String :=
  let fromMessage : Option String :=
    match chunk.getOpt "message" with
    | some m =>
      if jsTruthy m then
        match m.getOpt "content" with
        | some (Json.str s) => some s
        | _ => none
      else none
    | none => none
  firstSome fromMessage
    (match chunk.getOpt "response" with
      | some (Json.str s) => some s
      | _ => none)

/-- `chunk?.done === true`. -/
def isDoneChunk (chunk : Json) : Bool :=
  match chunk.getOpt "done" with
  | some (Json.bool true) => true
  | _ => false

/-- `if (options.includeRawChunks) controller.enqueue(\x7btype: "raw", ...\x7d)`. -/
def rawPartsOf (includeRaw : Bool) (trimmed : String) : List StreamPart :=
  if includeRaw then [StreamPart.raw trimmed] else []

/-- The `if (delta)` block of the line loop: in prompt mode a non-empty
delta is only accumulated into `fullText`; otherwise `text-start` is
emitted once and then a `text-delta`. -/
def deltaStepF (prompt : Bool) (rawParts : List StreamPart) (st : LoopState) (chunk : Json) :
    LoopState × List StreamPart :=
  match chunkDelta chunk with
  | some d =>
    if d = "" then (st, rawParts)
    else if prompt then ({ st with fullText := st.fullText ++ d }, rawParts)
    else
      match st.currentTextId with
      | some tid => (st, rawParts ++ [StreamPart.textDelta tid d])
      | none =>
        ({ st with currentTextId := some "ollama-text" },
          rawParts ++ [StreamPart.textStart "ollama-text",
            StreamPart.textDelta "ollama-text" d])
  | none => (st, rawParts)

/-- The body of the `for (const line of lines)` loop (`mcp.ts` lines
1763-1802): parts emitted for one line and the updated state. -/
def processLine (includeRaw prompt : Bool) (st : LoopState) (line : String) :
    LoopState × List StreamPart :=
  if Pty.strTrim line = "" then (st, [])
  else
    match jsonParse (Pty.strTrim line) with
    | none => (st, rawPartsOf includeRaw (Pty.strTrim line) ++ [StreamPart.error])
    | some chunk =>
      if isDoneChunk chunk then
        ({ (deltaStepF prompt (rawPartsOf includeRaw (Pty.strTrim line)) st chunk).1 with
            isDone := true },
          (deltaStepF prompt (rawPartsOf includeRaw (Pty.strTrim line)) st chunk).2)
      else deltaStepF prompt (rawPartsOf includeRaw (Pty.strTrim line)) st chunk

/-- The line loop with its `break` on `isDone`: remaining lines of the
current network chunk are not processed once a `done` chunk is seen. -/
def processLineList (includeRaw prompt : Bool) : LoopState → List String → LoopState × List StreamPart
  | st, [] => (st, [])
  | st, l :: ls =>
    match processLine includeRaw prompt st l with
    | (st1, ps1) =>
      if st1.isDone then (st1, ps1)
      else
        match processLineList includeRaw prompt st1 ls with
        | (st2, ps2) => (st2, ps1 ++ ps2)

/-- The `while (true)` read loop (`mcp.ts` lines 1756-1805): each element
of `chunks` is one decoded `reader.read()` value; it is appended to the
line buffer, the buffer is split on newlines with the final segment
retained as the new buffer, and the loop exits once `isDone` is set. -/
def processChunks (includeRaw prompt : Bool) : LoopState → List String → LoopState × List StreamPart
  | st, [] => (st, [])
  | st, c :: cs =>
    let segs := splitOnChar (Char.ofNat 10) (st.buffer ++ c)
    match processLineList includeRaw prompt { st with buffer := segs.getLastD "" } segs.dropLast with
    | (st1, ps1) =>
      if st1.isDone then (st1, ps1)
      else
        match processChunks includeRaw prompt st1 cs with
        | (st2, ps2) => (st2, ps1 ++ ps2)

/-- The post-loop phase of `doStream` (`mcp.ts` lines 1807-1837): in
prompt mode the accumulated text is parsed once, and either one tool-call
part per parsed call (`gen i` standing for the `i`-th
`crypto.randomUUID()`) or a text-start/text-delta/text-end trio is
emitted; the finish part comes last with the reason chosen here. -/
def endPhase (prompt : Bool) (gen : Nat → String) (st : LoopState) : List StreamPart :=
  if prompt then
    match parsePromptToolCall st.fullText with
    | PromptParse.tool calls =>
      mapWithIdx (fun i c => StreamPart.toolCall (gen i) c.1 (stringify (argForStringify c.2))) 0 calls
        ++ [StreamPart.finish "tool-calls"]
    | PromptParse.final t =>
      [StreamPart.textStart "ollama-text", StreamPart.textDelta "ollama-text" t,
        StreamPart.textEnd "ollama-text", StreamPart.finish "stop"]
  else
    match st.currentTextId with
    | some tid => [StreamPart.textEnd tid, StreamPart.finish "stop"]
    | none => [StreamPart.finish "stop"]

/-- The full part sequence a consumer observes from `doStream`
(`stream-start` enqueued first, then the read loop, then the end phase). -/
def doStreamParts (includeRaw prompt : Bool) (gen : Nat → String) (chunks : List String) :
    List StreamPart :=
  match processChunks includeRaw prompt initLoopState chunks with
  | (st, mid) => StreamPart.streamStart :: (mid ++ endPhase prompt gen st)

end Shim

/-!
## Provider registry: filter pass and model lookup

Embedding of the filter loop in `Provider.state` (`mcp.ts` lines
2600-2870) and of `Provider.getModel` (lines 2975-2993).  A model entry is
abbreviated to the fields the filter pass inspects when deciding
membership (`modelID` and `status`); the rewrites the same loop applies to
surviving entries (`api.npm` for the copilot providers, the `api.id`
default, variant pruning) change fields of kept models and never decide
membership, so they are not represented.
-/

namespace Registry

structure RModel where
  modelID : String
  status : String
deriving DecidableEq

/-- The per-provider user config consulted by the filter pass: a JS array
field is either absent (`none`) or present, possibly empty. -/
structure ProviderCfg where
  blacklist : Option (List String)
  whitelist : Option (List String)
deriving DecidableEq

/-- `isProviderAllowed` (`mcp.ts` lines 2603-2607): `enabled` is `none`
when `config.enabled_providers` is unset. -/
def isProviderAllowed (enabled : Option (List String)) (disabled : List String)
    (pid : String) : Bool :=
  (match enabled with
    | some e => pid ∈ e
    | none => true)
  && !(pid ∈ disabled)

/-- Whether one iteration of the model loop (`mcp.ts` lines 2841-2862)
deletes the entry: the `gpt-5-chat` special cases, alpha without the
experimental flag, deprecated, blacklisted, or missing from a present
whitelist. -/
def modelDeleted (flag : Bool) (cfg : Option ProviderCfg) (pid : String) (m : RModel) : Bool :=
  (m.modelID = "gpt-5-chat-latest")
  || (pid = "openrouter" && m.modelID = "openai/gpt-5-chat")
  || (m.status = "alpha" && !flag)
  || (m.status = "deprecated")
  || (match cfg with
      | some c =>
        (match c.blacklist with
          | some bl => m.modelID ∈ bl
          | none => false)
        || (match c.whitelist with
            | some wl => !(m.modelID ∈ wl)
            | none => false)
      | none => false)

/-- The provider loop (`mcp.ts` lines 2823-2870): disallowed providers
are removed, each provider's models are filtered by `modelDeleted`, and a
provider left with no models is removed.  `flag` is
`Flag.OPENCODE_ENABLE_EXPERIMENTAL_MODELS`, `cfgOf` is
`config.provider?.[providerID]`. -/
def filterProviders (flag : Bool) (enabled : Option (List String)) (disabled : List String)
    (cfgOf : String → Option ProviderCfg) (provs : List (String × List RModel)) :
    List (String × List RModel) :=
  provs.filterMap (fun p =>
    if isProviderAllowed enabled disabled p.1 then
      match p.2.filter (fun m => !(modelDeleted flag (cfgOf p.1) p.1 m)) with
      | [] => none
      | ms => some (p.1, ms)
    else none)

/-- The error payload of `ModelNotFoundError`. -/
structure ModelNotFound where
  providerID : String
  modelID : String
  suggestions : List String
deriving DecidableEq

/-- Insertion step of the score ordering. -/
def insertByDesc (le : α → α → Bool) (x : α) : List α → List α
  | [] => [x]
  | y :: ys => if le x y then x :: y :: ys else y :: insertByDesc le x ys

/-- Insertion sort (structural recursion). -/
def sortByDesc (le : α → α → Bool) : List α → List α
  | [] => []
  | x :: xs => insertByDesc le x (sortByDesc le xs)

/-- Modelled from the spec: `fuzzysort.go(query, targets, opts)` from the
third-party `fuzzysort` library (not part of this repository) returns the
matching targets ordered best first, keeping only matches whose score
reaches `threshold` and at most `limit` of them; `score` abstracts the
library's scoring, with `none` for a target that does not match at all. -/
def fuzzysortGo (score : String → String → Option Int) (limit : Nat) (threshold : Int)
    (query : String) (targets : List String) : List String :=
  ((sortByDesc (fun a b => b.2 ≤ a.2)
      ((targets.filterMap (fun t => (score query t).map (fun sc => (t, sc)))).filter
        (fun p => threshold ≤ p.2))).take limit).map Prod.fst

/-- First provider entry with the given id (JS object key lookup). -/
def lookupProv (provs : List (String × List RModel)) (pid : String) : Option (List RModel) :=
  match provs with
  | [] => none
  | p :: ps => if p.1 = pid then some p.2 else lookupProv ps pid

/-- First model with the given id. -/
def lookupModel (models : List RModel) (mid : String) : Option RModel :=
  match models with
  | [] => none
  | m :: ms => if m.modelID = mid then some m else lookupModel ms mid

/-- `Provider.getModel` (`mcp.ts` lines 2975-2993): a missing provider or
model throws `ModelNotFoundError` carrying fuzzy suggestions computed with
`limit: 3, threshold: -10000`; the registry `provs` is read, never
written. -/
def getModel (score : String → String → Option Int) (provs : List (String × List RModel))
    (pid mid : String) : Except ModelNotFound RModel :=
  match lookupProv provs pid with
  | none =>
    Except.error ⟨pid, mid, fuzzysortGo score 3 (-10000) pid (provs.map Prod.fst)⟩
  | some models =>
    match lookupModel models mid with
    | none =>
      Except.error ⟨pid, mid, fuzzysortGo score 3 (-10000) mid (models.map RModel.modelID)⟩
    | some info => Except.ok info

end Registry


/-- C5: a Bedrock model ID already prefixed with `global.` or `jp.`
passes through unchanged; with region `eu-central-1`, model
`anthropic.claude-3-5-sonnet` resolves to
`eu.anthropic.claude-3-5-sonnet`; with region `us-gov-west-1` the same
model receives no prefix. -/
theorem bedrock_prefix_resolution :
    (∀ region modelID : String,
      (strStartsWith modelID "global." || strStartsWith modelID "jp.") = true →
      Bedrock.resolveBedrockModelID region modelID = modelID) ∧
    Bedrock.resolveBedrockModelID "eu-central-1" "anthropic.claude-3-5-sonnet"
      = "eu.anthropic.claude-3-5-sonnet" ∧
    Bedrock.resolveBedrockModelID "us-gov-west-1" "anthropic.claude-3-5-sonnet"
      = "anthropic.claude-3-5-sonnet" := by
  refine ⟨?_, ?_, ?_⟩
  · intro region modelID h
    simp [Bedrock.resolveBedrockModelID, h]
  · decide
  · decide

/-- Witness for `bedrock_prefix_resolution`: the pass-through clause
applied at the concrete ID `jp.anthropic.claude-3-5-sonnet`. -/
theorem bedrock_prefix_resolution_witness :
    Bedrock.resolveBedrockModelID "us-east-1" "jp.anthropic.claude-3-5-sonnet"
      = "jp.anthropic.claude-3-5-sonnet" :=
  bedrock_prefix_resolution.1 "us-east-1" "jp.anthropic.claude-3-5-sonnet" (by decide)


namespace Pty

theorem tableGet_set (t : List (String × Session)) (sid : String) (s : Session) (sid' : String) :
    tableGet (tableSet t sid s) sid' = if sid' = sid then some s else tableGet t sid' := by
  induction t with
  | nil =>
    rcases eq_or_ne sid' sid with h | h
    · subst h; simp [tableSet, tableGet]
    · simp [tableSet, tableGet, h, Ne.symm h]
  | cons p ps ih =>
    rcases eq_or_ne p.1 sid with hp | hp
    · rcases eq_or_ne sid' sid with h | h
      · subst h; simp [tableSet, tableGet, hp]
      · have hp' : p.1 ≠ sid' := fun hc => h (hc.symm.trans hp).symm.symm
        simp [tableSet, tableGet, hp, h, Ne.symm h, hp']
    · rcases eq_or_ne sid' sid with h | h
      · subst h
        simp [tableSet, tableGet, hp, ih]
      · simp [tableSet, tableGet, hp, h, ih]

theorem tableGet_erase (t : List (String × Session)) (sid sid' : String) :
    tableGet (tableErase t sid) sid' = if sid' = sid then none else tableGet t sid' := by
  induction t with
  | nil => simp [tableErase, tableGet]
  | cons p ps ih =>
    rcases eq_or_ne p.1 sid with hp | hp
    · rcases eq_or_ne sid' sid with h | h
      · subst h; simp [tableErase, tableGet, hp, ih]
      · have hp' : p.1 ≠ sid' := fun hc => h (hc.symm.trans hp).symm.symm
        simp [tableErase, tableGet, hp, h, Ne.symm h, hp', ih]
    · rcases eq_or_ne sid' sid with h | h
      · subst h
        simp [tableErase, tableGet, hp, ih]
      · simp [tableErase, tableGet, hp, h, ih]


theorem jsSliceNeg_length (s : String) (n : Nat) :
    (jsSliceNeg s n).length = s.length - (s.length - n) := by
  have h : (jsSliceNeg s n).length = s.toList.length - (s.toList.length - n) :=
    List.length_drop _ _
  exact h

theorem bufTruncate_of_le (b : String) (h : b.length ≤ BUFFER_LIMIT) : bufTruncate b = b :=
  if_pos h

theorem bufTruncate_length_le (b : String) : (bufTruncate b).length ≤ BUFFER_LIMIT := by
  unfold bufTruncate
  split
  · assumption
  · rw [jsSliceNeg_length]
    omega

theorem bufTruncate_idem (b : String) : bufTruncate (bufTruncate b) = bufTruncate b :=
  bufTruncate_of_le _ (bufTruncate_length_le b)

/-- The `open` flag of the fan-out pass is set exactly when some delivery
was made. -/
theorem onDataSubs_open_iff (closed : List Nat) (data : String) (subs : List Nat) :
    (onDataSubs closed data subs).2.1 = true ↔ (onDataSubs closed data subs).2.2 ≠ [] := by
  induction subs with
  | nil => simp [onDataSubs]
  | cons ws rest ih =>
    by_cases hm : ws ∈ closed <;> simp [onDataSubs, hm, ih]

theorem onData_status (closed : List Nat) (s : Session) (data : String) :
    (onData closed s data).1.status = s.status := by
  unfold onData
  split <;> rfl

theorem onData_log (closed : List Nat) (s : Session) (data : String) :
    (onData closed s data).2 = (onDataSubs closed data s.subscribers).2.2 := by
  unfold onData
  split <;> rfl

theorem onData_subscribers (closed : List Nat) (s : Session) (data : String) :
    (onData closed s data).1.subscribers = (onDataSubs closed data s.subscribers).1 := by
  unfold onData
  split <;> rfl

theorem onData_buffer_open (closed : List Nat) (s : Session) (data : String)
    (h : (onDataSubs closed data s.subscribers).2.1 = true) :
    (onData closed s data).1.buffer = s.buffer := by
  simp only [onData, h, if_true]

theorem onData_buffer_noOpen (closed : List Nat) (s : Session) (data : String)
    (h : (onDataSubs closed data s.subscribers).2.1 = false) :
    (onData closed s data).1.buffer = bufTruncate (s.buffer ++ data) := by
  simp only [onData, h, Bool.false_eq_true, if_false]

theorem onData_buffer_le (closed : List Nat) (s : Session) (data : String)
    (h : s.buffer.length ≤ BUFFER_LIMIT) :
    (onData closed s data).1.buffer.length ≤ BUFFER_LIMIT := by
  cases ho : (onDataSubs closed data s.subscribers).2.1 with
  | true => rw [onData_buffer_open closed s data ho]; exact h
  | false =>
    rw [onData_buffer_noOpen closed s data ho]
    exact bufTruncate_length_le _


theorem inv_of_table_eq (m m' : Mux) (ht : m'.table = m.table) (h : Inv m) : Inv m' :=
  fun sid s hs => h sid s (ht ▸ hs)

theorem inv_tableSet (m : Mux) (h : Inv m) (sid : String) {z : Session} {sid' : String}
    {s' : Session} (h' : tableGet (tableSet m.table sid z) sid' = some s')
    (hz : z.buffer.length ≤ BUFFER_LIMIT) (hzs : z.status = SessStatus.running) :
    s'.buffer.length ≤ BUFFER_LIMIT ∧ s'.status = SessStatus.running := by
  rw [tableGet_set] at h'
  split at h'
  · cases h'; exact ⟨hz, hzs⟩
  · exact h sid' s' h'

theorem connectDir_fields (m : Mux) (sid : String) (session : Session) (dir : String) :
    (connectDir m sid session dir).1.subscribers = session.subscribers ∧
    (connectDir m sid session dir).1.buffer = session.buffer ∧
    (connectDir m sid session dir).1.status = session.status ∧
    (connectDir m sid session dir).1.listeners = session.listeners := by
  unfold connectDir
  split
  · split <;> simp
  · simp

theorem inv_connectFlush (m : Mux) (sid : String) (w : Nat) (session : Session)
    (evs : List BusEv) (wrs : List (String × String)) (fl : Option Nat) (h : Inv m)
    (hbuf : session.buffer.length ≤ BUFFER_LIMIT) (hst : session.status = SessStatus.running) :
    Inv (connectFlush m sid w session evs wrs fl).1 := by
  cases fl with
  | some j =>
    simp only [connectFlush]
    split
    · split
      · exact fun sid' s' h' => inv_tableSet m h sid h' (bufTruncate_length_le _) hst
      · exact fun sid' s' h' => inv_tableSet m h sid h' (by simp) hst
    · exact fun sid' s' h' => inv_tableSet m h sid h' hbuf hst
  | none =>
    simp only [connectFlush]
    split
    · exact fun sid' s' h' => inv_tableSet m h sid h' (by simp) hst
    · exact fun sid' s' h' => inv_tableSet m h sid h' hbuf hst

theorem inv_connect (m : Mux) (sid : String) (w : Nat) (dir : Option String)
    (fl : Option Nat) (h : Inv m) : Inv (connect m sid w dir fl).1 := by
  unfold connect
  cases hg : tableGet m.table sid with
  | none => exact inv_of_table_eq m _ rfl h
  | some s =>
    have hfields := connectDir_fields m sid
      ({ s with subscribers := setAdd s.subscribers w }) (dirOf dir)
    rcases hd : connectDir m sid ({ s with subscribers := setAdd s.subscribers w })
      (dirOf dir) with ⟨s2, evs, wrs⟩
    rw [hd] at hfields
    simp only [hd]
    exact inv_connectFlush m sid w s2 evs wrs fl h
      (by rw [hfields.2.1]; exact (h sid s hg).1)
      (by rw [hfields.2.2.1]; exact (h sid s hg).2)

theorem applyTitle_fields (s : Session) (title : Option String) :
    (applyTitle s title).buffer = s.buffer ∧ (applyTitle s title).status = s.status ∧
    (applyTitle s title).subscribers = s.subscribers ∧
    (applyTitle s title).listeners = s.listeners := by
  cases title with
  | none => exact ⟨rfl, rfl, rfl, rfl⟩
  | some t => by_cases ht : t ≠ "" <;> simp [applyTitle, ht]

theorem inv_step (m : Mux) (e : Ev) (h : Inv m) : Inv (step m e) := by
  cases e with
  | createEv sid command cwd title cwdGiven =>
    exact fun sid' s' h' => inv_tableSet m h sid h' (by simp) rfl
  | outputEv sid data =>
    simp only [step]
    cases hg : tableGet m.table sid with
    | none => exact h
    | some s =>
      exact fun sid' s' h' =>
        inv_tableSet m h sid h' (onData_buffer_le _ _ _ (h sid s hg).1)
          ((onData_status _ _ _).trans (h sid s hg).2)
  | connectEv sid w directory failAt => exact inv_connect m sid w directory failAt h
  | closeEv sid w =>
    simp only [step]
    cases hg : tableGet m.table sid with
    | none => exact h
    | some s =>
      exact fun sid' s' h' => inv_tableSet m h sid h' (h sid s hg).1 (h sid s hg).2
  | setClosedEv w => exact inv_of_table_eq m _ rfl h
  | writeEv sid data =>
    simp only [step]
    cases hg : tableGet m.table sid with
    | none => exact h
    | some s => exact inv_of_table_eq m _ rfl h
  | updateEv sid title =>
    simp only [step]
    cases hg : tableGet m.table sid with
    | none => exact h
    | some s =>
      exact fun sid' s' h' =>
        inv_tableSet m h sid h' ((applyTitle_fields s title).1 ▸ (h sid s hg).1)
          ((applyTitle_fields s title).2.1 ▸ (h sid s hg).2)
  | removeEv sid =>
    simp only [step]
    cases hg : tableGet m.table sid with
    | none => exact h
    | some s =>
      intro sid' s' h'
      replace h' : tableGet (tableErase m.table sid) sid' = some s' := h'
      rw [tableGet_erase] at h'
      split at h'
      · cases h'
      · exact h sid' s' h'
  | exitEv sid code =>
    simp only [step]
    cases hg : tableGet m.table sid with
    | none => exact h
    | some s =>
      intro sid' s' h'
      replace h' : tableGet (tableErase m.table sid) sid' = some s' := h'
      rw [tableGet_erase] at h'
      split at h'
      · cases h'
      · exact h sid' s' h'
  | listenEv sid l =>
    simp only [step]
    cases hg : tableGet m.table sid with
    | none => exact h
    | some s =>
      intro sid' s' h'
      replace h' : tableGet (if s.status = SessStatus.running then
          tableSet m.table sid ({ s with listeners := setAdd s.listeners l })
          else m.table) sid' = some s' := h'
      by_cases hr : s.status = SessStatus.running
      · rw [if_pos hr] at h'
        exact inv_tableSet m h sid h' (h sid s hg).1 (h sid s hg).2
      · rw [if_neg hr] at h'
        exact h sid' s' h'
  | unlistenEv sid l =>
    simp only [step]
    cases hg : tableGet m.table sid with
    | none => exact h
    | some s =>
      exact fun sid' s' h' => inv_tableSet m h sid h' (h sid s hg).1 (h sid s hg).2

theorem inv_run (evs : List Ev) (m : Mux) (h : Inv m) : Inv (run m evs) := by
  induction evs generalizing m with
  | nil => exact h
  | cons e rest ih => exact ih (step m e) (inv_step m e h)

theorem inv_initMux : Inv initMux := by
  intro sid s h
  simp [initMux, tableGet] at h

end Pty

/-- C2: in every reachable multiplexer state the buffer of every session
is at most `BUFFER_LIMIT` = 2 MiB; moreover the `onData` handler leaves
the buffer unchanged when the chunk was delivered to at least one open
subscriber, and otherwise appends the chunk and truncates the buffer to
the trailing `BUFFER_LIMIT` characters. -/
theorem pty_buffer_limit :
    (∀ evs sid s, Pty.tableGet (Pty.run Pty.initMux evs).table sid = some s →
      s.buffer.length ≤ Pty.BUFFER_LIMIT) ∧
    (∀ closed s data,
      ((Pty.onData closed s data).2 ≠ [] →
        (Pty.onData closed s data).1.buffer = s.buffer) ∧
      ((Pty.onData closed s data).2 = [] →
        (Pty.onData closed s data).1.buffer = Pty.bufTruncate (s.buffer ++ data))) := by
  constructor
  · intro evs sid s h
    exact (Pty.inv_run evs Pty.initMux Pty.inv_initMux sid s h).1
  · intro closed s data
    constructor
    · intro hne
      apply Pty.onData_buffer_open
      rw [Pty.onDataSubs_open_iff]
      rw [Pty.onData_log] at hne
      exact hne
    · intro he
      rw [Pty.onData_log] at he
      apply Pty.onData_buffer_noOpen
      cases hop : (Pty.onDataSubs closed data s.subscribers).2.1 with
      | false => rfl
      | true =>
        exact absurd ((Pty.onDataSubs_open_iff closed data s.subscribers).mp hop)
          (by simp [he])

/-- Witness for `pty_buffer_limit`: after creating a session and buffering
one output chunk with no subscriber, the buffer is within the limit. -/
theorem pty_buffer_limit_witness :
    ({ title := "t", command := "bash", cwd := "/", status := Pty.SessStatus.running,
       buffer := "hi", subscribers := [], listeners := [],
       cwdPinned := false } : Pty.Session).buffer.length ≤ Pty.BUFFER_LIMIT :=
  pty_buffer_limit.1
    [Pty.Ev.createEv "p" "bash" "/" "t" false, Pty.Ev.outputEv "p" "hi"] "p" _ (by decide)

/-- C8: in every reachable multiplexer state every session in the table is
`running` (so a session whose status is `exited` has, vacuously, empty
subscriber and listener sets — the `onExit` handler removes the session
from the table in the same step in which it marks it exited); the exit
step on a live session erases it from the table and publishes
`pty.exited` with the exit code. -/
theorem pty_exited_invariant :
    (∀ evs sid s, Pty.tableGet (Pty.run Pty.initMux evs).table sid = some s →
      s.status = Pty.SessStatus.running ∧
      (s.status = Pty.SessStatus.exited → s.subscribers = [] ∧ s.listeners = [])) ∧
    (∀ (m : Pty.Mux) sid code s, Pty.tableGet m.table sid = some s →
      (Pty.step m (Pty.Ev.exitEv sid code)).table = Pty.tableErase m.table sid ∧
      (Pty.step m (Pty.Ev.exitEv sid code)).events
        = m.events ++ [Pty.BusEv.exited sid code]) := by
  constructor
  · intro evs sid s h
    have hr := (Pty.inv_run evs Pty.initMux Pty.inv_initMux sid s h).2
    refine ⟨hr, fun hex => ?_⟩
    rw [hr] at hex
    cases hex
  · intro m sid code s h
    simp [Pty.step, h]

/-- Witness for `pty_exited_invariant`: the exit step on a concrete
one-session state. -/
theorem pty_exited_invariant_witness :
    (Pty.step (Pty.run Pty.initMux [Pty.Ev.createEv "p" "bash" "/" "t" false])
        (Pty.Ev.exitEv "p" 0)).table
      = Pty.tableErase
          (Pty.run Pty.initMux [Pty.Ev.createEv "p" "bash" "/" "t" false]).table "p" ∧
    (Pty.step (Pty.run Pty.initMux [Pty.Ev.createEv "p" "bash" "/" "t" false])
        (Pty.Ev.exitEv "p" 0)).events
      = (Pty.run Pty.initMux [Pty.Ev.createEv "p" "bash" "/" "t" false]).events
        ++ [Pty.BusEv.exited "p" 0] :=
  pty_exited_invariant.2 (Pty.run Pty.initMux [Pty.Ev.createEv "p" "bash" "/" "t" false])
    "p" 0
    ({ title := "t", command := "bash", cwd := "/", status := Pty.SessStatus.running,
       buffer := "", subscribers := [], listeners := [], cwdPinned := false })
    (by decide)

/-- C10: `Pty.connect` with an id that is not in the session table closes
the supplied sink and returns no handler record; the table, delivery log,
bus events and write log are unchanged (in particular no session, buffer
or subscriber set of any existing session is modified). -/
theorem pty_connect_unknown (m : Pty.Mux) (sid : String) (w : Nat) (dir : Option String)
    (fl : Option Nat) (h : Pty.tableGet m.table sid = none) :
    Pty.connect m sid w dir fl = ({ m with closed := Pty.setAdd m.closed w }, false) := by
  simp only [Pty.connect, h]

/-- Witness for `pty_connect_unknown`: connecting to the empty table. -/
theorem pty_connect_unknown_witness :
    Pty.connect Pty.initMux "nope" 7 none none
      = ({ Pty.initMux with closed := Pty.setAdd Pty.initMux.closed 7 }, false) :=
  pty_connect_unknown Pty.initMux "nope" 7 none none (by decide)

namespace Pty

theorem mem_setAdd {l : List Nat} {u v : Nat} : v ∈ setAdd l u ↔ v ∈ l ∨ v = u := by
  by_cases hu : u ∈ l
  · simp only [setAdd, if_pos hu]
    constructor
    · exact Or.inl
    · rintro (h | rfl)
      · exact h
      · exact hu
  · simp [setAdd, hu]

theorem count_setAdd_self (l : List Nat) (w : Nat) (h : w ∉ l) : (setAdd l w).count w = 1 := by
  simp [setAdd, h, List.count_append, List.count_eq_zero.mpr h]

theorem count_setAdd_ne (l : List Nat) (u v : Nat) (h : v ≠ u) :
    (setAdd l u).count v = l.count v := by
  by_cases hu : u ∈ l
  · simp [setAdd, hu]
  · simp [setAdd, hu, List.count_append, List.count_singleton, h]

theorem count_setRemove_ne (l : List Nat) (u v : Nat) (h : v ≠ u) :
    (setRemove l u).count v = l.count v := by
  induction l with
  | nil => rfl
  | cons a as ih =>
    by_cases ha : a = u
    · subst ha
      simp only [setRemove, List.filter] at ih ⊢
      rw [show (decide ¬a = a) = false by simp, ih, List.count_cons]
      simp [h, Ne.symm h]
    · simp only [setRemove, List.filter] at ih ⊢
      simp only [show (decide ¬a = u) = true by simp [ha]]
      rw [List.count_cons, List.count_cons, ih]

theorem not_mem_setRemove_self (l : List Nat) (u : Nat) : u ∉ setRemove l u := by
  simp [setRemove, List.mem_filter]

theorem mem_setRemove {l : List Nat} {u v : Nat} : v ∈ setRemove l u ↔ v ∈ l ∧ v ≠ u := by
  simp [setRemove, List.mem_filter]

theorem mem_foldl_setAdd (l c : List Nat) (v : Nat) :
    v ∈ l.foldl setAdd c ↔ v ∈ c ∨ v ∈ l := by
  induction l generalizing c with
  | nil => simp
  | cons a as ih =>
    rw [List.foldl_cons, ih]
    rw [mem_setAdd]
    simp only [List.mem_cons]
    tauto

theorem deliveredTo_append (w : Nat) (l1 l2 : List (Nat × String)) :
    deliveredTo w (l1 ++ l2) = deliveredTo w l1 ++ deliveredTo w l2 := by
  simp [deliveredTo]

theorem deliveredTo_of_ne (w : Nat) (lg : List (Nat × String)) (h : ∀ x ∈ lg, x.1 ≠ w) :
    deliveredTo w lg = [] := by
  induction lg with
  | nil => rfl
  | cons x xs ih =>
    have hx := h x (by simp)
    simp only [deliveredTo, List.filter]
    rw [show (decide (x.1 = w)) = false by simp [hx]]
    exact ih fun y hy => h y (by simp [hy])

theorem deliveredTo_cons_self (w : Nat) (d : String) (lg : List (Nat × String)) :
    deliveredTo w ((w, d) :: lg) = d :: deliveredTo w lg := by
  simp [deliveredTo, List.filter]

theorem deliveredTo_cons_ne (w u : Nat) (d : String) (lg : List (Nat × String)) (h : u ≠ w) :
    deliveredTo w ((u, d) :: lg) = deliveredTo w lg := by
  simp only [deliveredTo, List.filter]
  rw [show (decide (u = w)) = false by simp [h]]

theorem deliveredTo_map_self (w : Nat) (cs : List String) :
    deliveredTo w (cs.map (fun c => (w, c))) = cs := by
  induction cs with
  | nil => rfl
  | cons c cs ih => simpa [deliveredTo_cons_self] using ih

theorem chunksAux_join (fuel : Nat) (l : List Char) (h : l.length ≤ fuel) :
    strJoin (chunksAux fuel l) = ⟨l⟩ := by
  induction fuel generalizing l with
  | zero =>
    have hl : l = [] := List.length_eq_zero.mp (Nat.le_zero.mp h)
    subst hl
    rfl
  | succ fuel ih =>
    cases he : l.isEmpty with
    | true =>
      have hl : l = [] := by simpa using he
      subst hl
      rfl
    | false =>
      have hne : l ≠ [] := by simpa using he
      have hlen : 0 < l.length := List.length_pos.mpr hne
      simp only [chunksAux, he, Bool.false_eq_true, if_false, strJoin]
      rw [ih (l.drop BUFFER_CHUNK) (by simp only [List.length_drop]; unfold BUFFER_CHUNK; omega)]
      show String.mk (l.take BUFFER_CHUNK ++ l.drop BUFFER_CHUNK) = String.mk l
      rw [List.take_append_drop]

theorem chunksAux_mem_le (fuel : Nat) (l : List Char) (c : String) (hc : c ∈ chunksAux fuel l) :
    c.length ≤ BUFFER_CHUNK := by
  induction fuel generalizing l with
  | zero => cases hc
  | succ fuel ih =>
    cases he : l.isEmpty with
    | true => rw [chunksAux, if_pos (by simpa using he)] at hc; cases hc
    | false =>
      rw [chunksAux, if_neg (by simp [he])] at hc
      rcases List.mem_cons.mp hc with h | h
      · subst h
        have : (l.take BUFFER_CHUNK).length ≤ BUFFER_CHUNK := by
          simp [List.length_take]
        exact this
      · exact ih _ h

theorem chunkList_join (b : String) : strJoin (chunkList b) = b := by
  rw [chunkList, chunksAux_join b.toList.length b.toList le_rfl]
  rfl

theorem chunkList_mem_le (b : String) (c : String) (hc : c ∈ chunkList b) :
    c.length ≤ BUFFER_CHUNK :=
  chunksAux_mem_le _ _ _ hc

theorem chunkList_empty : chunkList "" = [] := rfl


/-- A sink that is not subscribed survives the fan-out untouched and
receives nothing. -/
theorem onDataSubs_not_mem (closed : List Nat) (data : String) (subs : List Nat) (w : Nat)
    (hw : w ∉ subs) :
    w ∉ (onDataSubs closed data subs).1 ∧
    (∀ x ∈ (onDataSubs closed data subs).2.2, x.1 ≠ w) := by
  induction subs with
  | nil => simp [onDataSubs]
  | cons ws rest ih =>
    have hne : ws ≠ w := fun hh => hw (hh ▸ List.mem_cons_self ws rest)
    have hw2 : w ∉ rest := fun hh => hw (List.mem_cons_of_mem _ hh)
    by_cases hm : ws ∈ closed
    · simpa [onDataSubs, hm] using ih hw2
    · simp only [onDataSubs, if_neg hm]
      constructor
      · intro hmem
        rcases List.mem_cons.mp hmem with h | h
        · exact hne h.symm
        · exact (ih hw2).1 h
      · intro x hx
        rcases List.mem_cons.mp hx with h | h
        · subst h; exact hne
        · exact (ih hw2).2 x h

/-- An open sink subscribed exactly once stays subscribed exactly once,
forces the `open` flag, and receives the chunk exactly once. -/
theorem onDataSubs_mem_one (closed : List Nat) (data : String) (subs : List Nat) (w : Nat)
    (hwc : w ∉ closed) (hc : subs.count w = 1) :
    (onDataSubs closed data subs).1.count w = 1 ∧ (onDataSubs closed data subs).2.1 = true ∧
    deliveredTo w (onDataSubs closed data subs).2.2 = [data] := by
  induction subs with
  | nil => simp at hc
  | cons ws rest ih =>
    rcases eq_or_ne ws w with hws | hws
    · subst hws
      have hcr : rest.count ws = 0 := by
        rw [List.count_cons] at hc
        simpa using hc
      have hwr : ws ∉ rest := List.count_eq_zero.mp hcr
      have hns := onDataSubs_not_mem closed data rest ws hwr
      simp only [onDataSubs, if_neg hwc]
      refine ⟨?_, by trivial, ?_⟩
      · rw [List.count_cons]
        simp [List.count_eq_zero.mpr hns.1]
      · rw [deliveredTo_cons_self, deliveredTo_of_ne _ _ hns.2]
    · have hcr : rest.count w = 1 := by
        rw [List.count_cons] at hc
        simpa [hws, Ne.symm hws] using hc
      by_cases hm : ws ∈ closed
      · simpa [onDataSubs, hm] using ih hcr
      · have ihr := ih hcr
        simp only [onDataSubs, if_neg hm]
        refine ⟨?_, by trivial, ?_⟩
        · rw [List.count_cons]
          simp [ihr.1, hws, Ne.symm hws]
        · rw [deliveredTo_cons_ne _ _ _ _ hws]
          exact ihr.2.2


/-- A successful `connect` on a live session: the sink is added, the
(truncated) backlog is flushed to it in chunks, the buffer is cleared and
the handler record is returned. -/
theorem connect_ok_spec (m : Mux) (sid : String) (w : Nat) (dir : Option String) (s : Session)
    (hg : tableGet m.table sid = some s) :
    ∃ s2 evs wrs,
      connect m sid w dir none =
        ({ m with table := tableSet m.table sid s2,
                  log := m.log ++ (chunkList (bufTruncate s.buffer)).map (fun c => (w, c)),
                  events := evs, writes := wrs }, true) ∧
      s2.buffer = "" ∧ s2.subscribers = setAdd s.subscribers w ∧ s2.status = s.status := by
  have hfields := connectDir_fields m sid
    ({ s with subscribers := setAdd s.subscribers w }) (dirOf dir)
  rcases hd : connectDir m sid ({ s with subscribers := setAdd s.subscribers w })
    (dirOf dir) with ⟨sD, evsD, wrsD⟩
  rw [hd] at hfields
  have hsub : sD.subscribers = setAdd s.subscribers w := hfields.1
  have hbuf : sD.buffer = s.buffer := hfields.2.1
  have hst : sD.status = s.status := hfields.2.2.1
  simp only [connect, hg, hd]
  by_cases hb : sD.buffer = ""
  · refine ⟨sD, evsD, wrsD, ?_, hb, hsub, hst⟩
    simp only [connectFlush]
    rw [if_neg (show ¬sD.buffer ≠ "" by simpa using hb)]
    have hsb : s.buffer = "" := hbuf.symm.trans hb
    rw [hsb]
    simp [bufTruncate, chunkList_empty]
  · refine ⟨{ sD with buffer := "" }, evsD, wrsD, ?_, rfl, hsub, hst⟩
    simp only [connectFlush]
    rw [if_pos hb, hbuf]

/-- A `connect` whose flush send throws at chunk `j`: the sink is dropped
and closed, only the first `j` chunks were delivered, and the buffer is
restored to the truncated backlog. -/
theorem connect_fail_spec (m : Mux) (sid : String) (w : Nat) (dir : Option String) (s : Session)
    (j : Nat) (hg : tableGet m.table sid = some s)
    (hj : j < (chunkList (bufTruncate s.buffer)).length) :
    ∃ s2 evs wrs,
      connect m sid w dir (some j) =
        ({ m with table := tableSet m.table sid s2,
                  closed := setAdd m.closed w,
                  log := m.log ++ ((chunkList (bufTruncate s.buffer)).take j).map (fun c => (w, c)),
                  events := evs, writes := wrs }, false) ∧
      s2.buffer = bufTruncate s.buffer ∧ w ∉ s2.subscribers ∧ s2.status = s.status := by
  have hfields := connectDir_fields m sid
    ({ s with subscribers := setAdd s.subscribers w }) (dirOf dir)
  rcases hd : connectDir m sid ({ s with subscribers := setAdd s.subscribers w })
    (dirOf dir) with ⟨sD, evsD, wrsD⟩
  rw [hd] at hfields
  have hbuf : sD.buffer = s.buffer := hfields.2.1
  have hst : sD.status = s.status := hfields.2.2.1
  have hbne : sD.buffer ≠ "" := by
    intro hb
    have hsb : s.buffer = "" := hbuf.symm.trans hb
    rw [hsb] at hj
    simp [bufTruncate, chunkList_empty] at hj
  simp only [connect, hg, hd, connectFlush]
  rw [if_pos hbne, hbuf, if_pos hj]
  refine ⟨{ sD with subscribers := setRemove sD.subscribers w, buffer := bufTruncate s.buffer },
    evsD, wrsD, rfl, rfl, ?_, hst⟩
  exact not_mem_setRemove_self _ _

/-- General shape of any `connect` on a live session `sid`: the table is
updated at `sid` only, every new log entry is addressed to the connecting
sink, the closed set gains at most that sink, and the multiplicity of any
other sink among the subscribers is unchanged. -/
theorem connect_char (m : Mux) (sid : String) (w : Nat) (dir : Option String) (fl : Option Nat)
    (s : Session) (hg : tableGet m.table sid = some s) :
    ∃ s2 lg cl evs wrs,
      (connect m sid w dir fl).1 =
        { table := tableSet m.table sid s2, closed := cl, log := m.log ++ lg,
          events := evs, writes := wrs } ∧
      (∀ x ∈ lg, x.1 = w) ∧ (cl = m.closed ∨ cl = setAdd m.closed w) ∧
      (∀ v, v ≠ w → s2.subscribers.count v = s.subscribers.count v) ∧
      s2.status = s.status := by
  have hfields := connectDir_fields m sid
    ({ s with subscribers := setAdd s.subscribers w }) (dirOf dir)
  rcases hd : connectDir m sid ({ s with subscribers := setAdd s.subscribers w })
    (dirOf dir) with ⟨sD, evsD, wrsD⟩
  rw [hd] at hfields
  have hsub : sD.subscribers = setAdd s.subscribers w := hfields.1
  have hst : sD.status = s.status := hfields.2.2.1
  have hcount : ∀ v, v ≠ w → sD.subscribers.count v = s.subscribers.count v := by
    intro v hv
    rw [hsub, count_setAdd_ne _ _ _ hv]
  cases fl with
  | none =>
    simp only [connect, hg, hd, connectFlush]
    by_cases hb : sD.buffer ≠ ""
    · rw [if_pos hb]
      refine ⟨{ sD with buffer := "" },
        (chunkList (bufTruncate sD.buffer)).map (fun c => (w, c)), m.closed, evsD, wrsD,
        rfl, ?_, Or.inl rfl, hcount, hst⟩
      intro x hx
      rcases List.mem_map.mp hx with ⟨c, _, rfl⟩
      rfl
    · rw [if_neg hb]
      refine ⟨sD, [], m.closed, evsD, wrsD, ?_, by simp, Or.inl rfl, hcount, hst⟩
      simp
  | some j =>
    simp only [connect, hg, hd, connectFlush]
    by_cases hb : sD.buffer ≠ ""
    · rw [if_pos hb]
      by_cases hjc : j < (chunkList (bufTruncate sD.buffer)).length
      · rw [if_pos hjc]
        refine ⟨{ sD with subscribers := setRemove sD.subscribers w,
                          buffer := bufTruncate sD.buffer },
          ((chunkList (bufTruncate sD.buffer)).take j).map (fun c => (w, c)),
          setAdd m.closed w, evsD, wrsD, rfl, ?_, Or.inr rfl, ?_, hst⟩
        · intro x hx
          rcases List.mem_map.mp hx with ⟨c, _, rfl⟩
          rfl
        · intro v hv
          have h1 : (setRemove sD.subscribers w).count v = sD.subscribers.count v :=
            count_setRemove_ne _ _ _ hv
          exact h1.trans (hcount v hv)
      · rw [if_neg hjc]
        refine ⟨{ sD with buffer := "" },
          (chunkList (bufTruncate sD.buffer)).map (fun c => (w, c)), m.closed, evsD, wrsD,
          rfl, ?_, Or.inl rfl, hcount, hst⟩
        intro x hx
        rcases List.mem_map.mp hx with ⟨c, _, rfl⟩
        rfl
    · rw [if_neg hb]
      refine ⟨sD, [], m.closed, evsD, wrsD, ?_, by simp, Or.inl rfl, hcount, hst⟩
      simp


/-- `GoodAt` is preserved by any state change that either keeps the table,
sets one key to a session respecting `w`'s multiplicity, or erases a key
other than `sid` — provided `w`'s socket stays open. -/
theorem goodAt_update (sid : String) (w : Nat) (m m' : Mux) (hg : GoodAt sid w m)
    (htab : m'.table = m.table ∨
      (∃ sid2 z, m'.table = tableSet m.table sid2 z ∧
        (sid2 = sid → z.subscribers.count w = 1) ∧ (sid2 ≠ sid → w ∉ z.subscribers)) ∨
      (∃ sid2, sid2 ≠ sid ∧ m'.table = tableErase m.table sid2))
    (hclw : w ∉ m'.closed) : GoodAt sid w m' := by
  obtain ⟨⟨t, ht, hcnt⟩, hother, _⟩ := hg
  refine ⟨?_, ?_, hclw⟩
  · rcases htab with he | ⟨sid2, z, he, hz1, hz2⟩ | ⟨sid2, hne, he⟩
    · exact ⟨t, he ▸ ht, hcnt⟩
    · rw [he, tableGet_set]
      by_cases hc : sid = sid2
      · rw [if_pos hc]
        exact ⟨z, rfl, hz1 hc.symm⟩
      · rw [if_neg hc]
        exact ⟨t, ht, hcnt⟩
    · rw [he, tableGet_erase, if_neg (Ne.symm hne)]
      exact ⟨t, ht, hcnt⟩
  · intro sid3 t3 hne3 hg3
    rcases htab with he | ⟨sid2, z, he, hz1, hz2⟩ | ⟨sid2, hne, he⟩
    · exact hother sid3 t3 hne3 (he ▸ hg3)
    · rw [he, tableGet_set] at hg3
      by_cases hc : sid3 = sid2
      · rw [if_pos hc] at hg3
        cases hg3
        exact hz2 (hc ▸ hne3)
      · rw [if_neg hc] at hg3
        exact hother sid3 t3 hne3 hg3
    · rw [he, tableGet_erase] at hg3
      by_cases hc : sid3 = sid2
      · rw [if_pos hc] at hg3
        cases hg3
      · rw [if_neg hc] at hg3
        exact hother sid3 t3 hne3 hg3


/-- One untouched step preserves `GoodAt` and delivers to `w` exactly the
session's child output carried by the event. -/
theorem step_good (sid : String) (w : Nat) (m : Mux) (e : Ev)
    (hg : GoodAt sid w m) (hu : evTouches sid w e = false) :
    GoodAt sid w (step m e) ∧
    deliveredTo w (step m e).log = deliveredTo w m.log ++ childOut sid [e] := by
  obtain ⟨⟨t, ht, hcnt⟩, hother, hclosed⟩ := hg
  have hgFull : GoodAt sid w m := ⟨⟨t, ht, hcnt⟩, hother, hclosed⟩
  cases e with
  | createEv sid2 a b c d =>
    have hne : sid2 ≠ sid := by
      intro hh
      simp [evTouches, hh] at hu
    constructor
    · refine goodAt_update sid w m _ hgFull (Or.inr (Or.inl ⟨sid2, _, rfl, ?_, ?_⟩)) hclosed
      · intro hh
        exact absurd hh hne
      · intro _
        simp
    · simp [childOut, step]
  | outputEv sid2 d =>
    simp only [step]
    cases hgt : tableGet m.table sid2 with
    | none =>
      by_cases hc : sid2 = sid
      · rw [hc] at hgt
        rw [hgt] at ht
        cases ht
      · exact ⟨hgFull, by simp [childOut, hc]⟩
    | some s2 =>
      dsimp only
      by_cases hc : sid2 = sid
      · subst hc
        have hts : s2 = t := Option.some.inj (hgt.symm.trans ht)
        subst hts
        have hmem := onDataSubs_mem_one m.closed d s2.subscribers w hclosed hcnt
        constructor
        · refine goodAt_update sid2 w m _ hgFull (Or.inr (Or.inl ⟨sid2, _, rfl, ?_, ?_⟩)) hclosed
          · intro _
            rw [onData_subscribers]
            exact hmem.1
          · intro hh
            exact absurd rfl hh
        · rw [deliveredTo_append, onData_log, hmem.2.2]
          simp [childOut]
      · have hwmem : w ∉ s2.subscribers := hother sid2 s2 hc hgt
        have hnm := onDataSubs_not_mem m.closed d s2.subscribers w hwmem
        constructor
        · refine goodAt_update sid w m _ hgFull (Or.inr (Or.inl ⟨sid2, _, rfl, ?_, ?_⟩)) hclosed
          · intro hh
            exact absurd hh hc
          · intro _
            rw [onData_subscribers]
            exact hnm.1
        · rw [deliveredTo_append, onData_log, deliveredTo_of_ne _ _ hnm.2]
          simp [childOut, hc]
  | connectEv sid2 w2 dir2 fl2 =>
    have hne : w2 ≠ w := by
      intro hh
      simp [evTouches, hh] at hu
    simp only [step]
    cases hgt : tableGet m.table sid2 with
    | none =>
      rw [pty_connect_unknown m sid2 w2 dir2 fl2 hgt]
      constructor
      · refine goodAt_update sid w m _ hgFull (Or.inl rfl) ?_
        intro hmem
        rcases mem_setAdd.mp hmem with h | h
        · exact hclosed h
        · exact hne h.symm
      · simp [childOut]
    | some s2 =>
      obtain ⟨z, lg, cl, evs2, wrs2, heq, hlg, hcl, hcnt2, _⟩ :=
        connect_char m sid2 w2 dir2 fl2 s2 hgt
      rw [heq]
      constructor
      · refine goodAt_update sid w m _ hgFull (Or.inr (Or.inl ⟨sid2, z, rfl, ?_, ?_⟩)) ?_
        · intro hh
          subst hh
          have hts : s2 = t := Option.some.inj (hgt.symm.trans ht)
          subst hts
          rw [hcnt2 w (Ne.symm hne)]
          exact hcnt
        · intro hh
          have hwmem : w ∉ s2.subscribers := hother sid2 s2 hh hgt
          have hz : z.subscribers.count w = 0 := by
            rw [hcnt2 w (Ne.symm hne)]
            exact List.count_eq_zero.mpr hwmem
          exact List.count_eq_zero.mp hz
        · dsimp only
          rcases hcl with h | h
          · rw [h]
            exact hclosed
          · rw [h]
            intro hmem
            rcases mem_setAdd.mp hmem with h2 | h2
            · exact hclosed h2
            · exact hne h2.symm
      · dsimp only
        rw [deliveredTo_append, deliveredTo_of_ne w lg (fun x hx => (hlg x hx) ▸ hne)]
        simp [childOut]
  | closeEv sid2 w2 =>
    have hne : w2 ≠ w := by
      intro hh
      simp [evTouches, hh] at hu
    simp only [step]
    cases hgt : tableGet m.table sid2 with
    | none => exact ⟨hgFull, by simp [childOut]⟩
    | some s2 =>
      dsimp only
      constructor
      · refine goodAt_update sid w m _ hgFull (Or.inr (Or.inl ⟨sid2, _, rfl, ?_, ?_⟩)) hclosed
        · intro hh
          subst hh
          have hts : s2 = t := Option.some.inj (hgt.symm.trans ht)
          subst hts
          show (setRemove s2.subscribers w2).count w = 1
          rw [count_setRemove_ne _ _ _ (Ne.symm hne)]
          exact hcnt
        · intro hh
          have hwmem : w ∉ s2.subscribers := hother sid2 s2 hh hgt
          intro hmem
          exact hwmem (mem_setRemove.mp hmem).1
      · simp [childOut]
  | setClosedEv w2 =>
    have hne : w2 ≠ w := by
      intro hh
      simp [evTouches, hh] at hu
    constructor
    · refine goodAt_update sid w m _ hgFull (Or.inl rfl) ?_
      intro hmem
      rcases mem_setAdd.mp hmem with h | h
      · exact hclosed h
      · exact hne h.symm
    · simp [childOut, step]
  | writeEv sid2 d =>
    simp only [step]
    cases hgt : tableGet m.table sid2 with
    | none => exact ⟨hgFull, by simp [childOut]⟩
    | some s2 =>
      exact ⟨goodAt_update sid w m _ hgFull (Or.inl rfl) hclosed, by simp [childOut]⟩
  | updateEv sid2 t2 =>
    simp only [step]
    cases hgt : tableGet m.table sid2 with
    | none => exact ⟨hgFull, by simp [childOut]⟩
    | some s2 =>
      dsimp only
      constructor
      · refine goodAt_update sid w m _ hgFull (Or.inr (Or.inl ⟨sid2, _, rfl, ?_, ?_⟩)) hclosed
        · intro hh
          subst hh
          have hts : s2 = t := Option.some.inj (hgt.symm.trans ht)
          subst hts
          rw [(applyTitle_fields s2 t2).2.2.1]
          exact hcnt
        · intro hh
          have hwmem : w ∉ s2.subscribers := hother sid2 s2 hh hgt
          rw [(applyTitle_fields s2 t2).2.2.1]
          exact hwmem
      · simp [childOut]
  | removeEv sid2 =>
    have hne : sid2 ≠ sid := by
      intro hh
      simp [evTouches, hh] at hu
    simp only [step]
    cases hgt : tableGet m.table sid2 with
    | none => exact ⟨hgFull, by simp [childOut]⟩
    | some s2 =>
      dsimp only
      constructor
      · refine goodAt_update sid w m _ hgFull (Or.inr (Or.inr ⟨sid2, hne, rfl⟩)) ?_
        intro hmem
        rcases (mem_foldl_setAdd s2.subscribers m.closed w).mp hmem with h | h
        · exact hclosed h
        · exact hother sid2 s2 hne hgt h
      · simp [childOut]
  | exitEv sid2 code =>
    have hne : sid2 ≠ sid := by
      intro hh
      simp [evTouches, hh] at hu
    simp only [step]
    cases hgt : tableGet m.table sid2 with
    | none => exact ⟨hgFull, by simp [childOut]⟩
    | some s2 =>
      exact ⟨goodAt_update sid w m _ hgFull (Or.inr (Or.inr ⟨sid2, hne, rfl⟩)) hclosed,
        by simp [childOut]⟩
  | listenEv sid2 l =>
    simp only [step]
    cases hgt : tableGet m.table sid2 with
    | none => exact ⟨hgFull, by simp [childOut]⟩
    | some s2 =>
      dsimp only
      constructor
      · by_cases hr : s2.status = SessStatus.running
        · refine goodAt_update sid w m _ hgFull
            (Or.inr (Or.inl ⟨sid2, _, by rw [if_pos hr], ?_, ?_⟩)) hclosed
          · intro hh
            subst hh
            have hts : s2 = t := Option.some.inj (hgt.symm.trans ht)
            subst hts
            exact hcnt
          · intro hh
            exact hother sid2 s2 hh hgt
        · exact goodAt_update sid w m _ hgFull (Or.inl (by rw [if_neg hr])) hclosed
      · simp [childOut]
  | unlistenEv sid2 l =>
    simp only [step]
    cases hgt : tableGet m.table sid2 with
    | none => exact ⟨hgFull, by simp [childOut]⟩
    | some s2 =>
      dsimp only
      constructor
      · refine goodAt_update sid w m _ hgFull (Or.inr (Or.inl ⟨sid2, _, rfl, ?_, ?_⟩)) hclosed
        · intro hh
          subst hh
          have hts : s2 = t := Option.some.inj (hgt.symm.trans ht)
          subst hts
          exact hcnt
        · intro hh
          exact hother sid2 s2 hh hgt
      · simp [childOut]


theorem childOut_cons (sid : String) (e : Ev) (rest : List Ev) :
    childOut sid (e :: rest) = childOut sid [e] ++ childOut sid rest := by
  cases e <;> simp [childOut]
  split <;> simp

/-- Over any untouched event sequence, `w` receives exactly the session's
child output. -/
theorem run_good (post : List Ev) (m : Mux) (sid : String) (w : Nat)
    (hg : GoodAt sid w m) (hall : ∀ e ∈ post, evTouches sid w e = false) :
    deliveredTo w (run m post).log = deliveredTo w m.log ++ childOut sid post := by
  induction post generalizing m with
  | nil => simp [run, childOut]
  | cons e rest ih =>
    have h1 := step_good sid w m e hg (hall e (by simp))
    have h2 := ih (step m e) h1.1 (fun e2 he2 => hall e2 (by simp [he2]))
    show deliveredTo w (run (step m e) rest).log = _
    rw [h2, h1.2, List.append_assoc, ← childOut_cons]

end Pty

/-- C1: a subscriber attached by `Pty.connect` to a live session, with a
fresh open sink, receives exactly the session's truncated backlog —
flushed in `BUFFER_CHUNK`-bounded chunks that reassemble to the backlog —
followed by exactly the child output produced after the attach, over any
event sequence that does not touch the sink or the session; a successful
flush clears the buffer, and when the flush send throws at some chunk the
sink is dropped and the buffer is restored, so a later subscriber
replays exactly the same backlog. -/
theorem pty_late_join_replay (m0 : Pty.Mux) (sid : String) (w : Nat) (dir : Option String)
    (s : Pty.Session)
    (hg : Pty.tableGet m0.table sid = some s)
    (hfresh : w ∉ s.subscribers)
    (hother : ∀ sid2 t2, sid2 ≠ sid → Pty.tableGet m0.table sid2 = some t2 →
      w ∉ t2.subscribers)
    (hopen : w ∉ m0.closed) :
    (∀ post, (∀ e ∈ post, Pty.evTouches sid w e = false) →
      Pty.deliveredTo w (Pty.run (Pty.connect m0 sid w dir none).1 post).log
        = Pty.deliveredTo w m0.log
          ++ Pty.chunkList (Pty.bufTruncate s.buffer) ++ Pty.childOut sid post) ∧
    (∀ c ∈ Pty.chunkList (Pty.bufTruncate s.buffer), c.length ≤ Pty.BUFFER_CHUNK) ∧
    Pty.strJoin (Pty.chunkList (Pty.bufTruncate s.buffer)) = Pty.bufTruncate s.buffer ∧
    (∃ s1, Pty.tableGet (Pty.connect m0 sid w dir none).1.table sid = some s1 ∧
      s1.buffer = "") ∧
    (∀ j, j < (Pty.chunkList (Pty.bufTruncate s.buffer)).length →
      (Pty.connect m0 sid w dir (some j)).2 = false ∧
      ∃ s2, Pty.tableGet (Pty.connect m0 sid w dir (some j)).1.table sid = some s2 ∧
        s2.buffer = Pty.bufTruncate s.buffer ∧ w ∉ s2.subscribers ∧
        ∀ w2 dir2,
          (Pty.connect (Pty.connect m0 sid w dir (some j)).1 sid w2 dir2 none).1.log
            = (Pty.connect m0 sid w dir (some j)).1.log
              ++ (Pty.chunkList (Pty.bufTruncate s.buffer)).map (fun c => (w2, c))) := by
  obtain ⟨s1, evs1, wrs1, heq1, hb1, hsub1, _⟩ := Pty.connect_ok_spec m0 sid w dir s hg
  have htab1 : (Pty.connect m0 sid w dir none).1.table = Pty.tableSet m0.table sid s1 := by
    rw [congrArg Prod.fst heq1]
  have hlog1 : (Pty.connect m0 sid w dir none).1.log
      = m0.log ++ (Pty.chunkList (Pty.bufTruncate s.buffer)).map (fun c => (w, c)) := by
    rw [congrArg Prod.fst heq1]
  have hcl1 : (Pty.connect m0 sid w dir none).1.closed = m0.closed := by
    rw [congrArg Prod.fst heq1]
  refine ⟨?_, fun c hc => Pty.chunkList_mem_le _ c hc, Pty.chunkList_join _, ?_, ?_⟩
  · intro post hall
    have hgood : Pty.GoodAt sid w (Pty.connect m0 sid w dir none).1 := by
      refine ⟨⟨s1, ?_, ?_⟩, ?_, ?_⟩
      · rw [htab1, Pty.tableGet_set, if_pos rfl]
      · rw [hsub1]
        exact Pty.count_setAdd_self _ _ hfresh
      · intro sid2 t2 hne hgt2
        rw [htab1, Pty.tableGet_set, if_neg hne] at hgt2
        exact hother sid2 t2 hne hgt2
      · rw [hcl1]
        exact hopen
    rw [Pty.run_good post _ sid w hgood hall, hlog1, Pty.deliveredTo_append,
      Pty.deliveredTo_map_self]
  · refine ⟨s1, ?_, hb1⟩
    rw [htab1, Pty.tableGet_set, if_pos rfl]
  · intro j hj
    obtain ⟨s2, evs2, wrs2, heq2, hb2, hw2, _⟩ := Pty.connect_fail_spec m0 sid w dir s j hg hj
    have htab2 : (Pty.connect m0 sid w dir (some j)).1.table = Pty.tableSet m0.table sid s2 := by
      rw [congrArg Prod.fst heq2]
    have hgt2 : Pty.tableGet (Pty.connect m0 sid w dir (some j)).1.table sid = some s2 := by
      rw [htab2, Pty.tableGet_set, if_pos rfl]
    constructor
    · rw [congrArg Prod.snd heq2]
    · refine ⟨s2, hgt2, hb2, hw2, ?_⟩
      intro w2 dir2
      obtain ⟨s3, evs3, wrs3, heq3, _, _, _⟩ :=
        Pty.connect_ok_spec (Pty.connect m0 sid w dir (some j)).1 sid w2 dir2 s2 hgt2
      rw [congrArg Prod.fst heq3]
      dsimp only
      rw [hb2, Pty.bufTruncate_idem]

/-- Witness for `pty_late_join_replay`: a session buffering `"AB"` with
no subscriber; sink 1 attaches and then the child writes `"C"`. -/
theorem pty_late_join_replay_witness :
    Pty.deliveredTo 1 (Pty.run (Pty.connect (Pty.run Pty.initMux
        [Pty.Ev.createEv "p" "bash" "/" "t" false, Pty.Ev.outputEv "p" "AB"]) "p" 1 none none).1
        [Pty.Ev.outputEv "p" "C"]).log
      = Pty.deliveredTo 1 (Pty.run Pty.initMux
          [Pty.Ev.createEv "p" "bash" "/" "t" false, Pty.Ev.outputEv "p" "AB"]).log
        ++ Pty.chunkList (Pty.bufTruncate "AB")
        ++ Pty.childOut "p" [Pty.Ev.outputEv "p" "C"] :=
  (pty_late_join_replay
      (Pty.run Pty.initMux [Pty.Ev.createEv "p" "bash" "/" "t" false, Pty.Ev.outputEv "p" "AB"])
      "p" 1 none
      ({ title := "t", command := "bash", cwd := "/", status := Pty.SessStatus.running,
         buffer := "AB", subscribers := [], listeners := [], cwdPinned := false })
      (by decide) (by decide)
      (by
        intro sid2 t2 hne hgt
        rw [show (Pty.run Pty.initMux
            [Pty.Ev.createEv "p" "bash" "/" "t" false, Pty.Ev.outputEv "p" "AB"]).table
            = [("p", ({ title := "t", command := "bash", cwd := "/", status := Pty.SessStatus.running, buffer := "AB", subscribers := [], listeners := [], cwdPinned := false } : Pty.Session))] from by decide] at hgt
        simp only [Pty.tableGet] at hgt
        rw [if_neg (fun hh => hne hh.symm)] at hgt
        cases hgt)
      (by decide)).1
    [Pty.Ev.outputEv "p" "C"] (by decide)

namespace Shim

theorem parse_final_of_extract_none (text : String) (h : extractJson text = none) :
    parsePromptToolCall text = PromptParse.final text := by
  unfold parsePromptToolCall
  rw [h]
  rfl

theorem parse_tool_nonempty (text : String) (calls : List (String × Json))
    (h : parsePromptToolCall text = PromptParse.tool calls) : calls ≠ [] := by
  unfold parsePromptToolCall at h
  by_cases hc : 0 < (promptCalls (promptRoot (extractJson text))).length
  · rw [if_pos hc] at h
    injection h with h2
    subst h2
    exact List.length_pos.mp hc
  · rw [if_neg hc] at h
    cases hf : promptFinalText (promptRoot (extractJson text)) <;> rw [hf] at h <;>
      exact PromptParse.noConfusion h

end Shim

namespace Shim

/-- C9: `parsePromptToolCall` is total: every input yields either a
tool-call result (with at least one call) or a final-text result; when
`extractJson` finds no parseable JSON object, and likewise when the parsed
root carries neither tool calls nor a final/content/text string, the raw
input is returned unchanged as the final text. -/
theorem prompt_parser_total (text : String) :
    ((∃ calls, parsePromptToolCall text = PromptParse.tool calls ∧ calls ≠ [])
      ∨ (∃ t, parsePromptToolCall text = PromptParse.final t))
    ∧ (extractJson text = none → parsePromptToolCall text = PromptParse.final text)
    ∧ (promptCalls (promptRoot (extractJson text)) = [] →
        promptFinalText (promptRoot (extractJson text)) = none →
        parsePromptToolCall text = PromptParse.final text) := by
  refine ⟨?_, parse_final_of_extract_none text, ?_⟩
  · by_cases hc : 0 < (promptCalls (promptRoot (extractJson text))).length
    · refine Or.inl ⟨promptCalls (promptRoot (extractJson text)), ?_, List.length_pos.mp hc⟩
      unfold parsePromptToolCall
      rw [if_pos hc]
    · cases hf : promptFinalText (promptRoot (extractJson text)) with
      | none =>
        refine Or.inr ⟨text, ?_⟩
        unfold parsePromptToolCall
        rw [if_neg hc, hf]
      | some s =>
        refine Or.inr ⟨s, ?_⟩
        unfold parsePromptToolCall
        rw [if_neg hc, hf]
  · intro h1 h2
    unfold parsePromptToolCall
    rw [h1, h2]
    simp

theorem prompt_parser_total_witness :
    parsePromptToolCall "hello" = PromptParse.final "hello" :=
  (prompt_parser_total "hello").2.1 rfl

end Shim

namespace Shim

/-- C3 (counterexample): on a response holding two top-level JSON objects
the code slices from the first opening brace to the LAST closing brace, so
`JSON.parse` fails and the whole raw text comes back as final text — the
first object is not used (that would give final text "A"). -/
theorem ollama_prompt_first_object_cex :
    extractJson "\x7b\"opencode\":\x7b\"final\":\"A\"\x7d\x7d\x7b\"opencode\":\x7b\"final\":\"B\"\x7d\x7d" = none
    ∧ parsePromptToolCall "\x7b\"opencode\":\x7b\"final\":\"A\"\x7d\x7d\x7b\"opencode\":\x7b\"final\":\"B\"\x7d\x7d"
        = PromptParse.final "\x7b\"opencode\":\x7b\"final\":\"A\"\x7d\x7d\x7b\"opencode\":\x7b\"final\":\"B\"\x7d\x7d"
    ∧ PromptParse.final "\x7b\"opencode\":\x7b\"final\":\"A\"\x7d\x7d\x7b\"opencode\":\x7b\"final\":\"B\"\x7d\x7d"
        ≠ PromptParse.final "A" := by
  refine ⟨rfl, rfl, ?_⟩
  intro h
  injection h with h2
  exact absurd h2 (by decide)

end Shim

namespace Shim

/-- C3 (amended): parsing takes the substring from the first opening
brace to the last closing brace of the trimmed text; when that is not
valid JSON (in particular when the text holds multiple top-level objects)
the whole raw text is returned as a single text part with finish reason
"stop"; when the parsed root carries tool calls, one tool-call part is
produced per surviving entry, with the `i`-th generated UUID as its id and
the entry's arguments serialized as its input, under finish reason
"tool-calls"; otherwise a single text part from final/content/text. -/
theorem ollama_prompt_tool_parts (gen : Nat → String) (text : String) :
    (extractJson text = none →
      doGeneratePromptParts gen text = ([Content.text text], "stop"))
    ∧ (∀ calls, parsePromptToolCall text = PromptParse.tool calls →
        calls ≠ [] ∧
        doGeneratePromptParts gen text =
          (mapWithIdx (fun i c => Content.toolCall (gen i) c.1 (stringify (argForStringify c.2)))
            0 calls, "tool-calls"))
    ∧ (∀ t, parsePromptToolCall text = PromptParse.final t →
        doGeneratePromptParts gen text = ([Content.text t], "stop")) := by
  refine ⟨?_, ?_, ?_⟩
  · intro h
    unfold doGeneratePromptParts
    rw [parse_final_of_extract_none text h]
  · intro calls h
    refine ⟨parse_tool_nonempty text calls h, ?_⟩
    unfold doGeneratePromptParts
    rw [h]
  · intro t h
    unfold doGeneratePromptParts
    rw [h]

theorem ollama_prompt_tool_parts_witness :
    doGeneratePromptParts (fun i => String.append "uuid-" (toString i))
        "\x7b\"opencode\":\x7b\"tool_calls\":[\x7b\"name\":\"ide.hover\",\"arguments\":\x7b\"uri\":\"a.ts\",\"line\":1,\"character\":0\x7d\x7d]\x7d\x7d"
      = ([Content.toolCall "uuid-0" "ide.hover" "\x7b\"uri\":\"a.ts\",\"line\":1,\"character\":0\x7d"],
          "tool-calls") :=
  ((ollama_prompt_tool_parts (fun i => String.append "uuid-" (toString i))
      "\x7b\"opencode\":\x7b\"tool_calls\":[\x7b\"name\":\"ide.hover\",\"arguments\":\x7b\"uri\":\"a.ts\",\"line\":1,\"character\":0\x7d\x7d]\x7d\x7d").2.1
    [("ide.hover",
      Json.obj [("uri", Json.str "a.ts"), ("line", Json.num "1"), ("character", Json.num "0")])]
    rfl).2

end Shim

namespace Shim

theorem deltaStepF_prompt_snd (rp : List StreamPart) (st : LoopState) (chunk : Json) :
    (deltaStepF true rp st chunk).2 = rp := by
  unfold deltaStepF
  cases chunkDelta chunk with
  | none => rfl
  | some d =>
    by_cases hd : d = "" <;> simp [hd]

theorem rawPartsOf_mid (b : Bool) (t : String) (p : StreamPart) (hp : p ∈ rawPartsOf b t) :
    (∃ v, p = StreamPart.raw v) ∨ p = StreamPart.error := by
  cases b with
  | false => simp [rawPartsOf] at hp
  | true =>
    simp [rawPartsOf] at hp
    exact Or.inl ⟨t, hp⟩

theorem processLine_mid (includeRaw : Bool) (st : LoopState) (line : String) (p : StreamPart)
    (hp : p ∈ (processLine includeRaw true st line).2) :
    (∃ v, p = StreamPart.raw v) ∨ p = StreamPart.error := by
  unfold processLine at hp
  by_cases ht : Pty.strTrim line = ""
  · rw [if_pos ht] at hp
    simp at hp
  · rw [if_neg ht] at hp
    cases hj : jsonParse (Pty.strTrim line) with
    | none =>
      rw [hj] at hp
      simp only [List.mem_append, List.mem_singleton] at hp
      cases hp with
      | inl h => exact rawPartsOf_mid includeRaw (Pty.strTrim line) p h
      | inr h => exact Or.inr h
    | some chunk =>
      rw [hj] at hp
      dsimp only at hp
      by_cases hd : isDoneChunk chunk = true
      · rw [if_pos hd] at hp
        dsimp only at hp
        rw [deltaStepF_prompt_snd] at hp
        exact rawPartsOf_mid includeRaw (Pty.strTrim line) p hp
      · rw [if_neg hd] at hp
        rw [deltaStepF_prompt_snd] at hp
        exact rawPartsOf_mid includeRaw (Pty.strTrim line) p hp

theorem processLineList_mid (includeRaw : Bool) (lines : List String) :
    ∀ (st : LoopState) (p : StreamPart),
      p ∈ (processLineList includeRaw true st lines).2 →
      (∃ v, p = StreamPart.raw v) ∨ p = StreamPart.error := by
  induction lines with
  | nil => intro st p hp; simp [processLineList] at hp
  | cons l ls ih =>
    intro st p hp
    unfold processLineList at hp
    cases hl : processLine includeRaw true st l with
    | mk st1 ps1 =>
      rw [hl] at hp
      dsimp only at hp
      by_cases hd : st1.isDone = true
      · rw [if_pos hd] at hp
        have := processLine_mid includeRaw st l p
        rw [hl] at this
        exact this hp
      · rw [if_neg hd] at hp
        cases hrest : processLineList includeRaw true st1 ls with
        | mk st2 ps2 =>
          rw [hrest] at hp
          dsimp only at hp
          simp only [List.mem_append] at hp
          cases hp with
          | inl h =>
            have := processLine_mid includeRaw st l p
            rw [hl] at this
            exact this h
          | inr h =>
            have := ih st1 p
            rw [hrest] at this
            exact this h

theorem processChunks_mid (includeRaw : Bool) (chunks : List String) :
    ∀ (st : LoopState) (p : StreamPart),
      p ∈ (processChunks includeRaw true st chunks).2 →
      (∃ v, p = StreamPart.raw v) ∨ p = StreamPart.error := by
  induction chunks with
  | nil => intro st p hp; simp [processChunks] at hp
  | cons c cs ih =>
    intro st p hp
    unfold processChunks at hp
    dsimp only at hp
    cases hl : processLineList includeRaw true
        { st with buffer := (splitOnChar (Char.ofNat 10) (st.buffer ++ c)).getLastD "" }
        (splitOnChar (Char.ofNat 10) (st.buffer ++ c)).dropLast with
    | mk st1 ps1 =>
      rw [hl] at hp
      dsimp only at hp
      by_cases hd : st1.isDone = true
      · rw [if_pos hd] at hp
        have := processLineList_mid includeRaw
          (splitOnChar (Char.ofNat 10) (st.buffer ++ c)).dropLast
          { st with buffer := (splitOnChar (Char.ofNat 10) (st.buffer ++ c)).getLastD "" } p
        rw [hl] at this
        exact this hp
      · rw [if_neg hd] at hp
        cases hrest : processChunks includeRaw true st1 cs with
        | mk st2 ps2 =>
          rw [hrest] at hp
          dsimp only at hp
          simp only [List.mem_append] at hp
          cases hp with
          | inl h =>
            have := processLineList_mid includeRaw
              (splitOnChar (Char.ofNat 10) (st.buffer ++ c)).dropLast
              { st with buffer := (splitOnChar (Char.ofNat 10) (st.buffer ++ c)).getLastD "" } p
            rw [hl] at this
            exact this h
          | inr h =>
            have := ih st1 p
            rw [hrest] at this
            exact this h

end Shim

namespace Shim

/-- C4: in streaming prompt mode the consumer observes `stream-start`
first, then only raw-chunk/error parts while the response is being read
(no text or tool-call part mid-stream), and after the stream ends either
one synthesized tool-call part per parsed call followed by a finish with
reason "tool-calls", or a single text-start/text-delta/text-end trio
followed by a finish with reason "stop"; the finish part is last. -/
theorem ollama_stream_shape (includeRaw : Bool) (gen : Nat → String) (chunks : List String) :
    ∃ mid tail,
      doStreamParts includeRaw true gen chunks = StreamPart.streamStart :: (mid ++ tail)
      ∧ (∀ p ∈ mid, (∃ v, p = StreamPart.raw v) ∨ p = StreamPart.error)
      ∧ ((∃ calls : List (String × Json), calls ≠ [] ∧
            tail = mapWithIdx (fun i c =>
                StreamPart.toolCall (gen i) c.1 (stringify (argForStringify c.2))) 0 calls
              ++ [StreamPart.finish "tool-calls"])
          ∨ (∃ t, tail = [StreamPart.textStart "ollama-text",
              StreamPart.textDelta "ollama-text" t, StreamPart.textEnd "ollama-text",
              StreamPart.finish "stop"])) := by
  cases hrun : processChunks includeRaw true initLoopState chunks with
  | mk st mid =>
    refine ⟨mid, endPhase true gen st, ?_, ?_, ?_⟩
    · unfold doStreamParts
      rw [hrun]
    · intro p hp
      have := processChunks_mid includeRaw chunks initLoopState p
      rw [hrun] at this
      exact this hp
    · cases hparse : parsePromptToolCall st.fullText with
      | tool calls =>
        refine Or.inl ⟨calls, parse_tool_nonempty st.fullText calls hparse, ?_⟩
        unfold endPhase
        rw [if_pos rfl, hparse]
      | final t =>
        refine Or.inr ⟨t, ?_⟩
        unfold endPhase
        rw [if_pos rfl, hparse]

end Shim

namespace Registry

/-- C6: every provider entry surviving the filter pass is an allowed
provider with a non-empty model list, and none of its models is
deprecated, alpha without the experimental flag, blacklisted, or missing
from a present whitelist; a provider all of whose models are filtered out
does not survive. -/
theorem registry_filter_invariant (flag : Bool) (enabled : Option (List String))
    (disabled : List String) (cfgOf : String → Option ProviderCfg)
    (provs : List (String × List RModel)) :
    (∀ pid ms, (pid, ms) ∈ filterProviders flag enabled disabled cfgOf provs →
      isProviderAllowed enabled disabled pid = true ∧ ms ≠ [] ∧ ∀ m ∈ ms,
        m.status ≠ "deprecated"
        ∧ (m.status = "alpha" → flag = true)
        ∧ (∀ c bl, cfgOf pid = some c → c.blacklist = some bl → ¬ m.modelID ∈ bl)
        ∧ (∀ c wl, cfgOf pid = some c → c.whitelist = some wl → m.modelID ∈ wl))
    ∧ (∀ pid, (∀ ms0, (pid, ms0) ∈ provs →
          ms0.filter (fun m => !(modelDeleted flag (cfgOf pid) pid m)) = []) →
        ∀ ms, ¬ (pid, ms) ∈ filterProviders flag enabled disabled cfgOf provs) := by
  constructor
  · intro pid ms hmem
    rw [filterProviders, List.mem_filterMap] at hmem
    obtain ⟨p, hp, hf⟩ := hmem
    by_cases hallow : isProviderAllowed enabled disabled p.1 = true
    · rw [if_pos hallow] at hf
      cases hflt : p.2.filter (fun m => !(modelDeleted flag (cfgOf p.1) p.1 m)) with
      | nil => rw [hflt] at hf; exact absurd hf (by simp)
      | cons a as =>
        rw [hflt] at hf
        have hpid : p.1 = pid := congrArg Prod.fst (Option.some.inj hf)
        have hms : a :: as = ms := congrArg Prod.snd (Option.some.inj hf)
        subst hpid
        refine ⟨hallow, ?_, ?_⟩
        · rw [← hms]; exact fun h => List.noConfusion h
        · intro m hm
          have hmem2 : m ∈ p.2.filter (fun m => !(modelDeleted flag (cfgOf p.1) p.1 m)) := by
            rw [hflt, hms]; exact hm
          have hdel : modelDeleted flag (cfgOf p.1) p.1 m = false := by
            have := List.of_mem_filter hmem2
            simpa using this
          refine ⟨?_, ?_, ?_, ?_⟩
          · intro hstat
            simp [modelDeleted, hstat] at hdel
          · intro hstat
            by_contra hflag
            rw [Bool.not_eq_true] at hflag
            simp [modelDeleted, hstat, hflag] at hdel
          · intro c bl hc hbl hin
            simp [modelDeleted, hc, hbl, hin] at hdel
          · intro c wl hc hwl
            by_contra hin
            simp [modelDeleted, hc, hwl, hin] at hdel
    · rw [if_neg hallow] at hf
      exact absurd hf (by simp)
  · intro pid hall ms hmem
    rw [filterProviders, List.mem_filterMap] at hmem
    obtain ⟨p, hp, hf⟩ := hmem
    by_cases hallow : isProviderAllowed enabled disabled p.1 = true
    · rw [if_pos hallow] at hf
      cases hflt : p.2.filter (fun m => !(modelDeleted flag (cfgOf p.1) p.1 m)) with
      | nil => rw [hflt] at hf; exact absurd hf (by simp)
      | cons a as =>
        rw [hflt] at hf
        have hpid : p.1 = pid := congrArg Prod.fst (Option.some.inj hf)
        have hp2 : (pid, p.2) ∈ provs := by
          rw [← hpid]
          exact hp
        have := hall p.2 hp2
        rw [hpid] at hflt
        rw [this] at hflt
        exact List.noConfusion hflt
    · rw [if_neg hallow] at hf
      exact absurd hf (by simp)

end Registry

namespace Registry

theorem registry_filter_invariant_witness :
    (RModel.mk "m1" "stable").status ≠ "deprecated"
    ∧ ¬ ("bad", [RModel.mk "m2" "deprecated"]) ∈
        filterProviders false none [] (fun _ => none)
          [("good", [RModel.mk "m1" "stable"]), ("bad", [RModel.mk "m2" "deprecated"])] := by
  constructor
  · exact (((registry_filter_invariant false none [] (fun _ => none)
      [("good", [RModel.mk "m1" "stable"]), ("bad", [RModel.mk "m2" "deprecated"])]).1
      "good" [RModel.mk "m1" "stable"] (by decide)).2.2 (RModel.mk "m1" "stable")
      (by decide)).1
  · exact (registry_filter_invariant false none [] (fun _ => none)
      [("good", [RModel.mk "m1" "stable"]), ("bad", [RModel.mk "m2" "deprecated"])]).2
      "bad" (by
        intro ms0 hm
        simp at hm
        subst hm
        rfl) [RModel.mk "m2" "deprecated"]

end Registry

namespace Registry

/-- C7: a lookup that misses the provider, or hits the provider but
misses the model, yields a `ModelNotFound` error whose suggestions come
from the fuzzy match with `limit: 3, threshold: -10000`; the suggestions
list never exceeds 3 entries and is empty when no candidate reaches the
threshold.  `getModel` only reads `provs`, so a failed lookup changes no
registry state. -/
theorem getmodel_not_found (score : String → String → Option Int)
    (provs : List (String × List RModel)) (pid mid : String) :
    (lookupProv provs pid = none →
      getModel score provs pid mid =
        Except.error ⟨pid, mid, fuzzysortGo score 3 (-10000) pid (provs.map Prod.fst)⟩)
    ∧ (∀ models, lookupProv provs pid = some models → lookupModel models mid = none →
      getModel score provs pid mid =
        Except.error ⟨pid, mid, fuzzysortGo score 3 (-10000) mid (models.map RModel.modelID)⟩)
    ∧ (∀ q targets, (fuzzysortGo score 3 (-10000) q targets).length ≤ 3)
    ∧ (∀ q targets, (∀ t ∈ targets, ∀ sc, score q t = some sc → sc < -10000) →
        fuzzysortGo score 3 (-10000) q targets = []) := by
  refine ⟨?_, ?_, ?_, ?_⟩
  · intro h
    rw [getModel, h]
  · intro models h1 h2
    rw [getModel, h1]
    dsimp only
    rw [h2]
  · intro q targets
    rw [fuzzysortGo]
    rw [List.length_map]
    exact List.length_take_le 3 _
  · intro q targets hsc
    rw [fuzzysortGo]
    have hnil : ((targets.filterMap (fun t => (score q t).map (fun sc => (t, sc)))).filter
        (fun p => decide ((-10000 : Int) ≤ p.2))) = [] := by
      rw [List.filter_eq_nil_iff]
      intro p hp
      rw [List.mem_filterMap] at hp
      obtain ⟨t, ht, hmap⟩ := hp
      cases hscore : score q t with
      | none => rw [hscore] at hmap; simp at hmap
      | some sc =>
        rw [hscore] at hmap
        have hmap2 : (t, sc) = p := Option.some.inj hmap
        have := hsc t ht sc hscore
        have hp2 : p.2 = sc := by rw [← hmap2]
        simp [hp2]
        omega
    rw [hnil]
    rfl

theorem getmodel_not_found_witness :
    getModel (fun _ t => if t = "openai" then some 0 else none)
        [("openai", [RModel.mk "gpt" "stable"])] "opnai" "x"
      = Except.error ⟨"opnai", "x", ["openai"]⟩ :=
  (getmodel_not_found (fun _ t => if t = "openai" then some 0 else none)
    [("openai", [RModel.mk "gpt" "stable"])] "opnai" "x").1 rfl

end Registry
